import Mathlib

/-!
Shallow embedding of the retention sweeper of the z-alert repository.

The repository holds two evolving copies of the same paginated cleanup
routine:

* `alert.py` — `run_delete_noti` fetches pages of all bot-authored
  messages (200 per page, anchored at a backward-moving cursor) and, per
  page, runs `delete_old_direct_messages` (48-hour cutoff) and
  `delete_old_stream_messages` (3-day cutoff, with the `spring`/`Txt`
  channel-topic pair excluded).
* `delete_noti.py` — two separate paginated passes,
  `delete_old_direct_messages` (narrow `is:private`, 24-hour cutoff) and
  `delete_old_stream_messages` (narrow `is:stream`, 3-day cutoff, same
  exclusion pair).

Timestamps are modelled in whole epoch seconds as integers.  The remote
chat platform is modelled by an environment giving the current clock,
the outcome of each delete call (keyed by message id), and whether each
page fetch fails remotely.  A message history is an id-ascending list;
a page fetch anchored at the current cursor returns the newest
(at most) 200 messages strictly below the cursor, oldest first, which
matches the `anchor` / `num_before=200` / `num_after=0` requests of the
source with the cursor as exclusive upper bound.  Every sweep records an
event trace: page fetches, sleeps (in milliseconds), and delete calls.
-/

/-- Zulip message type: `"private"` (direct) or `"stream"` (channel). -/
inductive MsgType
  | priv
  | stream
deriving DecidableEq, Repr

/-- A fetched message record: `id`, `type`, `timestamp` (epoch seconds),
`display_recipient` (stream name, meaningful for stream messages) and
`subject` (topic). -/
structure Msg where
  id : Nat
  type : MsgType
  timestamp : Int
  display_recipient : String
  subject : String
deriving DecidableEq, Repr

/-- Outcome of one delete call: the remote answered `success`, answered
with a non-success result, or the call raised (both files catch the
exception, log, and continue). -/
inductive DelOutcome
  | success
  | failure
  | exn
deriving DecidableEq, Repr

/-- One observable step of a sweep: a page fetch (with the anchor used
and the page obtained), a sleep of the given number of milliseconds, or
a delete call on a message id (tagged with the message kind of the loop
that issued it) together with its outcome. -/
inductive Ev
  | fetch (anchor : Option Nat) (page : List Msg)
  | sleep (ms : Nat)
  | delete (id : Nat) (kind : MsgType) (res : DelOutcome)
deriving DecidableEq, Repr

/-- The external world seen by a sweep: the current clock, the outcome
of the delete call on each message id, and whether the k-th page fetch
of the run fails remotely. -/
structure Env where
  now : Int
  delRes : Nat → DelOutcome
  fetchErr : Nat → Bool

/-- Result of a remote `get_messages` call: a successful page, a
non-success response, or a raised exception. -/
inductive FetchOutcome
  | ok (messages : List Msg)
  | httpError
  | exn
deriving Repr

/-- `fetch_bot_messages` of `alert.py` (and equally
`fetch_bot_direct_messages` / `fetch_bot_stream_messages` of
`delete_noti.py`): returns the fetched page on success and the empty
list on a non-success response or an exception — it never raises. -/
def fetch_bot_messages : FetchOutcome → List Msg
  | FetchOutcome.ok messages => messages
  | FetchOutcome.httpError => []
  | FetchOutcome.exn => []

/-- The page the remote returns for a history of messages strictly below
the current cursor: the newest at most 200 of them, oldest first
(`anchor`, `num_before = 200`, `num_after = 0`). -/
def pageOf (hist : List Msg) : List Msg := hist.drop (hist.length - 200)

/-- The part of the history strictly older than the page just fetched;
this is what lies strictly below the next cursor (the oldest id of the
fetched page), the history being id-ascending. -/
def restOf (hist : List Msg) : List Msg := hist.take (hist.length - 200)

/-- The remote behaviour of the k-th fetch of a run: either a remote
failure, or the correct page for the history below the cursor. -/
def remoteFetch (env : Env) (k : Nat) (hist : List Msg) : FetchOutcome :=
  if env.fetchErr k then FetchOutcome.httpError else FetchOutcome.ok (pageOf hist)

/-- Contribution of processing one page: increments for the two
counters (direct deletions, stream deletions) and the emitted events. -/
structure PageStep where
  dmCount : Nat
  stCount : Nat
  evs : List Ev
deriving Repr

/-- Final state of a sweep: the two accumulated counters, the number of
page fetches issued, and the full event trace. -/
structure SweepResult where
  dm_deleted : Nat
  stream_deleted : Nat
  fetches : Nat
  trace : List Ev
deriving Repr

/-- The shared body of the three per-message deletion loops: for each
message matching the loop's delete condition `q`, sleep 150 ms, issue
the delete call, and count it iff the remote answered success
(`deleted += 1` only under `result["result"] == "success"`; a
non-success answer or an exception is logged and skipped). -/
def delBatch (env : Env) (q : Msg → Bool) (kd : MsgType) : List Msg → Nat × List Ev
  | [] => (0, [])
  | msg :: rest =>
    if q msg then
      let res := env.delRes msg.id
      let tail := delBatch env q kd rest
      ((if res = DelOutcome.success then 1 else 0) + tail.1,
        Ev.sleep 150 :: Ev.delete msg.id kd res :: tail.2)
    else
      delBatch env q kd rest

/-- The shared pagination driver of `run_delete_noti` (`alert.py`) and
of the two passes of `delete_noti.py`: fetch a page at the cursor; an
empty page ends the sweep; otherwise remember the oldest id
(`messages[0]["id"]`), process the page, add its counts to the running
totals, move the cursor to the oldest id, stop if the page was shorter
than 200, else sleep 60 s and fetch the next page. -/
def sweepLoop (env : Env) (proc : List Msg → PageStep) :
    List Msg → Nat → Option Nat → Nat → Nat → SweepResult
  | hist, k, anchor, total_dm, total_st =>
    if hm : fetch_bot_messages (remoteFetch env k hist) = [] then
      ⟨total_dm, total_st, k + 1, [Ev.fetch anchor []]⟩
    else
      let messages := fetch_bot_messages (remoteFetch env k hist)
      let oldest_id := (messages.head hm).id
      let step := proc messages
      if hlt : messages.length < 200 then
        ⟨total_dm + step.dmCount, total_st + step.stCount, k + 1,
          Ev.fetch anchor messages :: step.evs⟩
      else
        let r := sweepLoop env proc (restOf hist) (k + 1) (some oldest_id)
          (total_dm + step.dmCount) (total_st + step.stCount)
        ⟨r.dm_deleted, r.stream_deleted, r.fetches,
          Ev.fetch anchor messages :: (step.evs ++ Ev.sleep 60000 :: r.trace)⟩
termination_by hist _ _ _ _ => hist.length
decreasing_by
  simp only [fetch_bot_messages, remoteFetch] at hm
  by_cases hfe : env.fetchErr k
  · rw [if_pos hfe] at hm
    exact absurd rfl hm
  · rw [if_neg hfe] at hm
    have hne : hist ≠ [] := by
      intro h0
      rw [h0] at hm
      exact hm rfl
    have hpos : 0 < hist.length := List.length_pos.mpr hne
    simp only [restOf, List.length_take]
    omega

namespace Alert

/-- `DM_DELETE_OLDER_THAN = timedelta(hours=48)` of `alert.py`, in seconds. -/
def DM_DELETE_OLDER_THAN : Int := 48 * 3600

/-- `STREAM_DELETE_OLDER_THAN = timedelta(days=3)` of `alert.py`, in seconds. -/
def STREAM_DELETE_OLDER_THAN : Int := 3 * 86400

/-- `EXCLUDED_STREAM` of `alert.py`. -/
def EXCLUDED_STREAM : String := "spring"

/-- `EXCLUDED_TOPIC` of `alert.py`. -/
def EXCLUDED_TOPIC : String := "Txt"

/-- The per-message decision of `delete_old_direct_messages` in
`alert.py`: skip non-private messages (`continue`), then delete iff
`ts < now - DM_DELETE_OLDER_THAN`. -/
def dmShouldDelete (now : Int) (msg : Msg) : Bool :=
  msg.type == MsgType.priv && decide (msg.timestamp < now - DM_DELETE_OLDER_THAN)

/-- The per-message decision of `delete_old_stream_messages` in
`alert.py`: skip non-stream messages, skip the excluded
`spring`/`Txt` pair, then delete iff `ts < now - STREAM_DELETE_OLDER_THAN`. -/
def stShouldDelete (now : Int) (msg : Msg) : Bool :=
  msg.type == MsgType.stream &&
    !(msg.display_recipient == EXCLUDED_STREAM && msg.subject == EXCLUDED_TOPIC) &&
    decide (msg.timestamp < now - STREAM_DELETE_OLDER_THAN)

/-- `delete_old_direct_messages(messages)` of `alert.py`: the per-page
direct-message deletion loop. -/
def delete_old_direct_messages (env : Env) (messages : List Msg) : Nat × List Ev :=
  delBatch env (dmShouldDelete env.now) MsgType.priv messages

/-- `delete_old_stream_messages(messages)` of `alert.py`: the per-page
stream-message deletion loop. -/
def delete_old_stream_messages (env : Env) (messages : List Msg) : Nat × List Ev :=
  delBatch env (stShouldDelete env.now) MsgType.stream messages

/-- Processing of one fetched page inside `run_delete_noti`: the direct
pass then the stream pass over the same page. -/
def procPage (env : Env) (messages : List Msg) : PageStep :=
  let dmr := delete_old_direct_messages env messages
  let str := delete_old_stream_messages env messages
  ⟨dmr.1, str.1, dmr.2 ++ str.2⟩

/-- `run_delete_noti()` of `alert.py`: the unified sweep, starting at
anchor `"newest"` (modelled `none`) with both totals at 0. -/
def run_delete_noti (env : Env) (hist : List Msg) : SweepResult :=
  sweepLoop env (procPage env) hist 0 none 0 0

end Alert

namespace DeleteNoti

/-- `DM_DELETE_OLDER_THAN = timedelta(hours=24)` of `delete_noti.py`, in seconds. -/
def DM_DELETE_OLDER_THAN : Int := 24 * 3600

/-- `STREAM_DELETE_OLDER_THAN = timedelta(days=3)` of `delete_noti.py`, in seconds. -/
def STREAM_DELETE_OLDER_THAN : Int := 3 * 86400

/-- `EXCLUDED_STREAM` of `delete_noti.py`. -/
def EXCLUDED_STREAM : String := "spring"

/-- `EXCLUDED_TOPIC` of `delete_noti.py`. -/
def EXCLUDED_TOPIC : String := "Txt"

/-- The per-message decision of the direct pass of `delete_noti.py`:
the narrow already restricts to private messages, so the loop only
tests `ts < now - DM_DELETE_OLDER_THAN` (24 hours). -/
def dmShouldDelete (now : Int) (msg : Msg) : Bool :=
  decide (msg.timestamp < now - DM_DELETE_OLDER_THAN)

/-- The per-message decision of the stream pass of `delete_noti.py`:
skip the excluded `spring`/`Txt` pair, then delete iff
`ts < now - STREAM_DELETE_OLDER_THAN`. -/
def stShouldDelete (now : Int) (msg : Msg) : Bool :=
  !(msg.display_recipient == EXCLUDED_STREAM && msg.subject == EXCLUDED_TOPIC) &&
    decide (msg.timestamp < now - STREAM_DELETE_OLDER_THAN)

/-- Page processing of the direct pass: its single total is the direct
counter; the stream counter is untouched. -/
def dmProc (env : Env) (messages : List Msg) : PageStep :=
  let b := delBatch env (dmShouldDelete env.now) MsgType.priv messages
  ⟨b.1, 0, b.2⟩

/-- Page processing of the stream pass: its single total is the stream
counter; the direct counter is untouched. -/
def stProc (env : Env) (messages : List Msg) : PageStep :=
  let b := delBatch env (stShouldDelete env.now) MsgType.stream messages
  ⟨0, b.1, b.2⟩

/-- `delete_old_direct_messages()` of `delete_noti.py`: a full
paginated pass over the bot's direct messages (narrow
`sender` + `is:private`), from anchor `"newest"`. -/
def delete_old_direct_messages (env : Env) (hist : List Msg) : SweepResult :=
  sweepLoop env (dmProc env) (hist.filter (fun m => m.type == MsgType.priv)) 0 none 0 0

/-- `delete_old_stream_messages()` of `delete_noti.py`: a full
paginated pass over the bot's stream messages (narrow
`sender` + `is:stream`), from anchor `"newest"`. -/
def delete_old_stream_messages (env : Env) (hist : List Msg) : SweepResult :=
  sweepLoop env (stProc env) (hist.filter (fun m => m.type == MsgType.stream)) 0 none 0 0

end DeleteNoti

/-- Whether a message belongs to the exemption set
`{(EXCLUDED_STREAM, EXCLUDED_TOPIC)} = {("spring", "Txt")}`. -/
def isExcluded (m : Msg) : Bool :=
  m.display_recipient == Alert.EXCLUDED_STREAM && m.subject == Alert.EXCLUDED_TOPIC

/-- The message id of a delete event, `none` for other events. -/
def delIdOf : Ev → Option Nat
  | Ev.delete i _ _ => some i
  | _ => none

/-- The message id of a successful delete event, `none` otherwise. -/
def succIdAny : Ev → Option Nat
  | Ev.delete i _ res => if res = DelOutcome.success then some i else none
  | _ => none

/-- Whether an event is a successful delete issued by the loop of the
given message kind. -/
def isSuccessDel (kd : MsgType) : Ev → Bool
  | Ev.delete _ kd0 res => kd0 == kd && res == DelOutcome.success
  | _ => false

/-- Whether an event is a page fetch. -/
def isFetchEv : Ev → Bool
  | Ev.fetch _ _ => true
  | _ => false

/-- Whether an event is a delete call. -/
def isDeleteEv : Ev → Bool
  | Ev.delete _ _ _ => true
  | _ => false

/-- Number of messages satisfying `q` seen across all pages fetched in
a trace. -/
def qualSeen (q : Msg → Bool) (tr : List Ev) : Nat :=
  (tr.map (fun e => match e with
    | Ev.fetch _ page => (page.filter q).length
    | _ => 0)).sum

/-- The shape of an event, forgetting the outcome of delete calls. -/
def evShape : Ev → Ev
  | Ev.delete i kd _ => Ev.delete i kd DelOutcome.success
  | e => e

/-- A list of events made of consecutive (150 ms sleep, delete) pairs. -/
def pairedBatch : List Ev → Bool
  | [] => true
  | Ev.sleep n :: Ev.delete _ _ _ :: rest => (n == 150) && pairedBatch rest
  | _ => false

/-- Every delete call in the list is immediately preceded by a 150 ms
sleep, `prev` being the event just before the list starts. -/
def chainOk : Ev → List Ev → Bool
  | _, [] => true
  | prev, e :: rest => (if isDeleteEv e then prev == Ev.sleep 150 else true) && chainOk e rest

/-- Every delete call of the trace is immediately preceded by a 150 ms
sleep (in particular the trace does not start with a delete). -/
def sleep150Before : List Ev → Bool
  | [] => true
  | e :: rest => !(isDeleteEv e) && chainOk e rest

/-- A healthy environment for concrete runs: clock at 200000 s, every
delete call succeeds, no fetch failures. -/
def env0 : Env := ⟨200000, fun _ => DelOutcome.success, fun _ => false⟩

/-- An environment whose every page fetch fails remotely. -/
def envErr : Env := ⟨200000, fun _ => DelOutcome.success, fun _ => true⟩

/-- An environment in which every delete call is rejected. -/
def envFail : Env := ⟨200000, fun _ => DelOutcome.failure, fun _ => false⟩

/-- A direct message aged 100000 s (about 27.8 hours) under `env0`:
older than 24 hours, younger than 48 hours. -/
def m0 : Msg := ⟨1, MsgType.priv, 100000, "", ""⟩

/-- A direct message far older than 48 hours under `env0`. -/
def mOld : Msg := ⟨3, MsgType.priv, -400000, "", ""⟩

/-- A stream message of the exempt `spring`/`Txt` pair, far older than
3 days under `env0`. -/
def mEx : Msg := ⟨2, MsgType.stream, -1000000, "spring", "Txt"⟩

/-! ### Basic facts about pages -/

theorem restOf_append_pageOf (hist : List Msg) : restOf hist ++ pageOf hist = hist :=
  List.take_append_drop _ _

theorem pageOf_eq_nil_iff (hist : List Msg) : pageOf hist = [] ↔ hist = [] := by
  constructor
  · intro h
    have := congrArg List.length h
    simp [pageOf] at this
    exact List.length_eq_zero.mp (by omega)
  · intro h
    simp [pageOf, h]

theorem length_restOf_lt (hist : List Msg) (h : hist ≠ []) :
    (restOf hist).length < hist.length := by
  have : 0 < hist.length := List.length_pos.mpr h
  simp only [restOf, List.length_take]
  omega

/-! ### Unfolding equations for the sweep driver -/

theorem sweepLoop_empty (env : Env) (proc : List Msg → PageStep) (hist : List Msg)
    (k : Nat) (a : Option Nat) (x y : Nat)
    (hm : fetch_bot_messages (remoteFetch env k hist) = []) :
    sweepLoop env proc hist k a x y = ⟨x, y, k + 1, [Ev.fetch a []]⟩ := by
  rw [sweepLoop.eq_def]
  simp [hm]

theorem sweepLoop_last (env : Env) (proc : List Msg → PageStep) (hist : List Msg)
    (k : Nat) (a : Option Nat) (x y : Nat) (m : Msg) (ms : List Msg)
    (hm : fetch_bot_messages (remoteFetch env k hist) = m :: ms)
    (hlt : (m :: ms).length < 200) :
    sweepLoop env proc hist k a x y =
      ⟨x + (proc (m :: ms)).dmCount, y + (proc (m :: ms)).stCount, k + 1,
        Ev.fetch a (m :: ms) :: (proc (m :: ms)).evs⟩ := by
  rw [sweepLoop.eq_def]
  simp only [List.length_cons] at hlt
  simp [hm, hlt]

theorem sweepLoop_step (env : Env) (proc : List Msg → PageStep) (hist : List Msg)
    (k : Nat) (a : Option Nat) (x y : Nat) (m : Msg) (ms : List Msg)
    (hm : fetch_bot_messages (remoteFetch env k hist) = m :: ms)
    (hlt : ¬ (m :: ms).length < 200) :
    sweepLoop env proc hist k a x y =
      ⟨(sweepLoop env proc (restOf hist) (k + 1) (some m.id)
          (x + (proc (m :: ms)).dmCount) (y + (proc (m :: ms)).stCount)).dm_deleted,
       (sweepLoop env proc (restOf hist) (k + 1) (some m.id)
          (x + (proc (m :: ms)).dmCount) (y + (proc (m :: ms)).stCount)).stream_deleted,
       (sweepLoop env proc (restOf hist) (k + 1) (some m.id)
          (x + (proc (m :: ms)).dmCount) (y + (proc (m :: ms)).stCount)).fetches,
       Ev.fetch a (m :: ms) :: ((proc (m :: ms)).evs ++ Ev.sleep 60000 ::
         (sweepLoop env proc (restOf hist) (k + 1) (some m.id)
            (x + (proc (m :: ms)).dmCount) (y + (proc (m :: ms)).stCount)).trace)⟩ := by
  rw [sweepLoop.eq_def]
  simp only [List.length_cons] at hlt
  simp [hm, hlt]

/-! ### Facts about the per-message deletion loop -/

theorem delBatch_count (env : Env) (q : Msg → Bool) (kd : MsgType) (l : List Msg) :
    (delBatch env q kd l).1
      = (l.filter fun m => q m && (env.delRes m.id == DelOutcome.success)).length := by
  induction l with
  | nil => rfl
  | cons m rest ih =>
    by_cases hq : q m
    · by_cases hs : env.delRes m.id = DelOutcome.success
      · simp [delBatch, hq, hs, ih, List.filter_cons]
        omega
      · simp [delBatch, hq, hs, ih, List.filter_cons]
    · simp [delBatch, hq, ih, List.filter_cons]

theorem delBatch_delIds (env : Env) (q : Msg → Bool) (kd : MsgType) (l : List Msg) :
    (delBatch env q kd l).2.filterMap delIdOf = (l.filter q).map (fun m => m.id) := by
  induction l with
  | nil => rfl
  | cons m rest ih =>
    by_cases hq : q m
    · simp [delBatch, hq, ih, List.filter_cons, delIdOf]
    · simp [delBatch, hq, ih, List.filter_cons]

theorem delBatch_succIds (env : Env) (q : Msg → Bool) (kd : MsgType) (l : List Msg) :
    (delBatch env q kd l).2.filterMap succIdAny
      = (l.filter fun m => q m && (env.delRes m.id == DelOutcome.success)).map
          (fun m => m.id) := by
  induction l with
  | nil => rfl
  | cons m rest ih =>
    by_cases hq : q m
    · by_cases hs : env.delRes m.id = DelOutcome.success
      · simp [delBatch, hq, hs, ih, List.filter_cons, succIdAny]
      · simp [delBatch, hq, hs, ih, List.filter_cons, succIdAny]
    · simp [delBatch, hq, ih, List.filter_cons]

theorem delBatch_succCount (env : Env) (q : Msg → Bool) (kd : MsgType) (l : List Msg) :
    (delBatch env q kd l).2.countP (isSuccessDel kd) = (delBatch env q kd l).1 := by
  induction l with
  | nil => rfl
  | cons m rest ih =>
    by_cases hq : q m
    · by_cases hs : env.delRes m.id = DelOutcome.success
      · simp [delBatch, hq, hs, ih, List.countP_cons, isSuccessDel]
        omega
      · simp [delBatch, hq, hs, ih, List.countP_cons, isSuccessDel]
    · simp [delBatch, hq, ih]

theorem delBatch_succCount_ne (env : Env) (q : Msg → Bool) (kd kd0 : MsgType)
    (hne : kd0 ≠ kd) (l : List Msg) :
    (delBatch env q kd l).2.countP (isSuccessDel kd0) = 0 := by
  induction l with
  | nil => rfl
  | cons m rest ih =>
    by_cases hq : q m
    · simp [delBatch, hq, ih, List.countP_cons, isSuccessDel, hne, Ne.symm hne]
    · simp [delBatch, hq, ih]

theorem delBatch_succCount_le (env : Env) (q : Msg → Bool) (kd : MsgType) (l : List Msg) :
    (delBatch env q kd l).2.countP (isSuccessDel kd) ≤ (l.filter q).length := by
  rw [delBatch_succCount, delBatch_count]
  simp only [← List.countP_eq_length_filter]
  exact List.countP_mono_left (fun a _ h => by
    simp only [Bool.and_eq_true] at h
    exact h.1)

theorem delBatch_no_fetch (env : Env) (q : Msg → Bool) (kd : MsgType) (l : List Msg)
    (a : Option Nat) (p : List Msg) : Ev.fetch a p ∉ (delBatch env q kd l).2 := by
  induction l with
  | nil => simp [delBatch]
  | cons m rest ih =>
    by_cases hq : q m
    · simp [delBatch, hq, ih]
    · simp [delBatch, hq, ih]

theorem delBatch_qualSeen (env : Env) (q : Msg → Bool) (kd : MsgType) (l : List Msg)
    (q2 : Msg → Bool) : qualSeen q2 (delBatch env q kd l).2 = 0 := by
  induction l with
  | nil => rfl
  | cons m rest ih =>
    by_cases hq : q m
    · simp [delBatch, hq, qualSeen] at ih ⊢
      exact ih
    · simp [delBatch, hq, ih]

theorem delBatch_mem_delete (env : Env) (q : Msg → Bool) (kd : MsgType) (l : List Msg)
    (i : Nat) (kd0 : MsgType) (res : DelOutcome)
    (hmem : Ev.delete i kd0 res ∈ (delBatch env q kd l).2) :
    ∃ m, m ∈ l ∧ m.id = i ∧ kd0 = kd ∧ q m = true ∧ res = env.delRes m.id := by
  induction l with
  | nil => simp [delBatch] at hmem
  | cons m rest ih =>
    by_cases hq : q m
    · simp only [delBatch, hq, if_true, List.mem_cons] at hmem
      rcases hmem with h | h | h
      · exact absurd h (by simp)
      · refine ⟨m, by simp, ?_, ?_, hq, ?_⟩ <;> cases h <;> rfl
      · obtain ⟨m', hm', hid, hkd, hqm, hres⟩ := ih h
        exact ⟨m', by simp [hm'], hid, hkd, hqm, hres⟩
    · simp only [delBatch, hq, if_false] at hmem
      obtain ⟨m', hm', hid, hkd, hqm, hres⟩ := ih hmem
      exact ⟨m', by simp [hm'], hid, hkd, hqm, hres⟩

theorem delBatch_paired (env : Env) (q : Msg → Bool) (kd : MsgType) (l : List Msg) :
    pairedBatch (delBatch env q kd l).2 = true := by
  induction l with
  | nil => rfl
  | cons m rest ih =>
    by_cases hq : q m
    · simp [delBatch, hq, pairedBatch, ih]
    · simp [delBatch, hq, ih]

theorem delBatch_shape (env env2 : Env) (q : Msg → Bool) (kd : MsgType) (l : List Msg) :
    (delBatch env q kd l).2.map evShape = (delBatch env2 q kd l).2.map evShape := by
  induction l with
  | nil => rfl
  | cons m rest ih =>
    by_cases hq : q m
    · simp [delBatch, hq, evShape, ih]
    · simp [delBatch, hq, ih]

theorem fetch_cons_elim (env : Env) (k : Nat) (hist : List Msg) (m : Msg) (ms : List Msg)
    (h : fetch_bot_messages (remoteFetch env k hist) = m :: ms) :
    env.fetchErr k = false ∧ pageOf hist = m :: ms := by
  by_cases hfe : env.fetchErr k
  · simp [remoteFetch, hfe, fetch_bot_messages] at h
  · simp only [remoteFetch, hfe, if_false, Bool.false_eq_true, fetch_bot_messages] at h
    exact ⟨by simp [hfe], h⟩

theorem fetch_nil_of_short (env : Env) (k : Nat) (hist : List Msg)
    (h : hist = []) : fetch_bot_messages (remoteFetch env k hist) = [] := by
  subst h
  by_cases hfe : env.fetchErr k <;> simp [remoteFetch, hfe, fetch_bot_messages, pageOf]

theorem pageOf_short (hist : List Msg) (h : (pageOf hist).length < 200) :
    pageOf hist = hist ∧ restOf hist = [] := by
  have hlen : (pageOf hist).length = hist.length - (hist.length - 200) := by
    simp [pageOf]
  have h0 : hist.length - 200 = 0 := by omega
  constructor
  · simp [pageOf, h0]
  · simp [restOf, h0]

theorem restOf_le_of_page (hist : List Msg) (m : Msg) (ms : List Msg) (n : Nat)
    (hpage : pageOf hist = m :: ms) (hlen : hist.length ≤ n + 1) :
    (restOf hist).length ≤ n := by
  have hne : hist ≠ [] := by
    intro h0
    rw [h0] at hpage
    simp [pageOf] at hpage
  have := length_restOf_lt hist hne
  omega

/-! ### Counters equal the number of successful delete events -/

theorem sweepLoop_dm_succ (env : Env) (proc : List Msg → PageStep)
    (hp : ∀ page, (proc page).dmCount = (proc page).evs.countP (isSuccessDel MsgType.priv)) :
    ∀ (n : Nat) (hist : List Msg), hist.length ≤ n → ∀ (k : Nat) (a : Option Nat) (x y : Nat),
      (sweepLoop env proc hist k a x y).dm_deleted
        = x + (sweepLoop env proc hist k a x y).trace.countP (isSuccessDel MsgType.priv) := by
  intro n
  induction n with
  | zero =>
    intro hist hlen k a x y
    have hnil : hist = [] := List.length_eq_zero.mp (Nat.le_zero.mp hlen)
    rw [sweepLoop_empty env proc hist k a x y (fetch_nil_of_short env k hist hnil)]
    simp [isSuccessDel]
  | succ n ih =>
    intro hist hlen k a x y
    cases hfetch : fetch_bot_messages (remoteFetch env k hist) with
    | nil =>
      rw [sweepLoop_empty env proc hist k a x y hfetch]
      simp [isSuccessDel]
    | cons m ms =>
      obtain ⟨hfe, hpage⟩ := fetch_cons_elim env k hist m ms hfetch
      by_cases hlt : (m :: ms).length < 200
      · rw [sweepLoop_last env proc hist k a x y m ms hfetch hlt]
        simp [List.countP_cons, isSuccessDel, hp]
      · rw [sweepLoop_step env proc hist k a x y m ms hfetch hlt]
        have ihr := ih (restOf hist) (restOf_le_of_page hist m ms n hpage hlen)
          (k + 1) (some m.id) (x + (proc (m :: ms)).dmCount) (y + (proc (m :: ms)).stCount)
        rw [ihr, hp (m :: ms)]
        simp [List.countP_cons, List.countP_append, isSuccessDel]
        omega

theorem sweepLoop_st_succ (env : Env) (proc : List Msg → PageStep)
    (hp : ∀ page, (proc page).stCount = (proc page).evs.countP (isSuccessDel MsgType.stream)) :
    ∀ (n : Nat) (hist : List Msg), hist.length ≤ n → ∀ (k : Nat) (a : Option Nat) (x y : Nat),
      (sweepLoop env proc hist k a x y).stream_deleted
        = y + (sweepLoop env proc hist k a x y).trace.countP (isSuccessDel MsgType.stream) := by
  intro n
  induction n with
  | zero =>
    intro hist hlen k a x y
    have hnil : hist = [] := List.length_eq_zero.mp (Nat.le_zero.mp hlen)
    rw [sweepLoop_empty env proc hist k a x y (fetch_nil_of_short env k hist hnil)]
    simp [isSuccessDel]
  | succ n ih =>
    intro hist hlen k a x y
    cases hfetch : fetch_bot_messages (remoteFetch env k hist) with
    | nil =>
      rw [sweepLoop_empty env proc hist k a x y hfetch]
      simp [isSuccessDel]
    | cons m ms =>
      obtain ⟨hfe, hpage⟩ := fetch_cons_elim env k hist m ms hfetch
      by_cases hlt : (m :: ms).length < 200
      · rw [sweepLoop_last env proc hist k a x y m ms hfetch hlt]
        simp [List.countP_cons, isSuccessDel, hp]
      · rw [sweepLoop_step env proc hist k a x y m ms hfetch hlt]
        have ihr := ih (restOf hist) (restOf_le_of_page hist m ms n hpage hlen)
          (k + 1) (some m.id) (x + (proc (m :: ms)).dmCount) (y + (proc (m :: ms)).stCount)
        rw [ihr, hp (m :: ms)]
        simp [List.countP_cons, List.countP_append, isSuccessDel]
        omega

/-! ### Successful deletes never exceed the qualifying messages seen -/

theorem qualSeen_cons (q : Msg → Bool) (e : Ev) (tr : List Ev) :
    qualSeen q (e :: tr)
      = (match e with
          | Ev.fetch _ page => (page.filter q).length
          | _ => 0) + qualSeen q tr := by
  simp [qualSeen]

theorem qualSeen_append (q : Msg → Bool) (tr1 tr2 : List Ev) :
    qualSeen q (tr1 ++ tr2) = qualSeen q tr1 + qualSeen q tr2 := by
  simp [qualSeen]

theorem sweepLoop_succ_le_seen (env : Env) (proc : List Msg → PageStep)
    (kd : MsgType) (q : Msg → Bool)
    (hple : ∀ page, (proc page).evs.countP (isSuccessDel kd) ≤ (page.filter q).length)
    (hpseen : ∀ page, qualSeen q (proc page).evs = 0) :
    ∀ (n : Nat) (hist : List Msg), hist.length ≤ n → ∀ (k : Nat) (a : Option Nat) (x y : Nat),
      (sweepLoop env proc hist k a x y).trace.countP (isSuccessDel kd)
        ≤ qualSeen q (sweepLoop env proc hist k a x y).trace := by
  intro n
  induction n with
  | zero =>
    intro hist hlen k a x y
    have hnil : hist = [] := List.length_eq_zero.mp (Nat.le_zero.mp hlen)
    rw [sweepLoop_empty env proc hist k a x y (fetch_nil_of_short env k hist hnil)]
    simp [isSuccessDel, qualSeen]
  | succ n ih =>
    intro hist hlen k a x y
    cases hfetch : fetch_bot_messages (remoteFetch env k hist) with
    | nil =>
      rw [sweepLoop_empty env proc hist k a x y hfetch]
      simp [isSuccessDel, qualSeen]
    | cons m ms =>
      obtain ⟨hfe, hpage⟩ := fetch_cons_elim env k hist m ms hfetch
      by_cases hlt : (m :: ms).length < 200
      · rw [sweepLoop_last env proc hist k a x y m ms hfetch hlt]
        have h1 := hple (m :: ms)
        have h2 := hpseen (m :: ms)
        simp [List.countP_cons, isSuccessDel, qualSeen_cons, h2]
        omega
      · rw [sweepLoop_step env proc hist k a x y m ms hfetch hlt]
        have ihr := ih (restOf hist) (restOf_le_of_page hist m ms n hpage hlen)
          (k + 1) (some m.id) (x + (proc (m :: ms)).dmCount) (y + (proc (m :: ms)).stCount)
        have h1 := hple (m :: ms)
        have h2 := hpseen (m :: ms)
        simp [List.countP_cons, List.countP_append, isSuccessDel, qualSeen_cons,
          qualSeen_append, h2]
        omega

/-! ### Bound on the number of page fetches -/

theorem sweepLoop_fetches_le (env : Env) (proc : List Msg → PageStep) :
    ∀ (n : Nat) (hist : List Msg), hist.length ≤ n → ∀ (k : Nat) (a : Option Nat) (x y : Nat),
      (sweepLoop env proc hist k a x y).fetches ≤ k + ((hist.length + 199) / 200 + 1) := by
  intro n
  induction n with
  | zero =>
    intro hist hlen k a x y
    have hnil : hist = [] := List.length_eq_zero.mp (Nat.le_zero.mp hlen)
    rw [sweepLoop_empty env proc hist k a x y (fetch_nil_of_short env k hist hnil)]
    simp
  | succ n ih =>
    intro hist hlen k a x y
    cases hfetch : fetch_bot_messages (remoteFetch env k hist) with
    | nil =>
      rw [sweepLoop_empty env proc hist k a x y hfetch]
      simp
    | cons m ms =>
      obtain ⟨hfe, hpage⟩ := fetch_cons_elim env k hist m ms hfetch
      by_cases hlt : (m :: ms).length < 200
      · rw [sweepLoop_last env proc hist k a x y m ms hfetch hlt]
        simp
      · rw [sweepLoop_step env proc hist k a x y m ms hfetch hlt]
        have ihr := ih (restOf hist) (restOf_le_of_page hist m ms n hpage hlen)
          (k + 1) (some m.id) (x + (proc (m :: ms)).dmCount) (y + (proc (m :: ms)).stCount)
        have hplen : hist.length - (hist.length - 200) = ms.length + 1 := by
          have := congrArg List.length hpage
          simp [pageOf] at this
          exact this
        have hrlen : (restOf hist).length = hist.length - 200 := by
          simp [restOf, List.length_take]
        simp only [List.length_cons] at hlt
        rw [hrlen] at ihr
        simp only []
        omega

/-! ### Multiset of extracted delete ids across a whole run -/

theorem sweepLoop_extract_eq (env : Env) (proc : List Msg → PageStep)
    (g : Ev → Option Nat) (F : List Msg → Multiset Nat)
    (hg1 : ∀ a p, g (Ev.fetch a p) = none) (hg2 : ∀ ms0, g (Ev.sleep ms0) = none)
    (hproc : ∀ page, ((proc page).evs.filterMap g : Multiset Nat) = F page)
    (hsplit : ∀ (l : List Msg) (i : Nat), F l = F (l.take i) + F (l.drop i))
    (hf : ∀ j, env.fetchErr j = false) :
    ∀ (n : Nat) (hist : List Msg), hist.length ≤ n → ∀ (k : Nat) (a : Option Nat) (x y : Nat),
      ((sweepLoop env proc hist k a x y).trace.filterMap g : Multiset Nat) = F hist := by
  have hF0 : F ([] : List Msg) = 0 := by
    have h := hsplit [] 0
    simp at h
    exact h
  intro n
  induction n with
  | zero =>
    intro hist hlen k a x y
    have hnil : hist = [] := List.length_eq_zero.mp (Nat.le_zero.mp hlen)
    rw [sweepLoop_empty env proc hist k a x y (fetch_nil_of_short env k hist hnil)]
    simp [hg1, hnil, hF0]
  | succ n ih =>
    intro hist hlen k a x y
    cases hfetch : fetch_bot_messages (remoteFetch env k hist) with
    | nil =>
      rw [sweepLoop_empty env proc hist k a x y hfetch]
      have hnil : hist = [] := by
        rw [← pageOf_eq_nil_iff]
        have h0 := hf k
        simp only [remoteFetch, h0, Bool.false_eq_true, if_false, fetch_bot_messages] at hfetch
        exact hfetch
      simp [hg1, hnil, hF0]
    | cons m ms =>
      obtain ⟨hfe, hpage⟩ := fetch_cons_elim env k hist m ms hfetch
      by_cases hlt : (m :: ms).length < 200
      · rw [sweepLoop_last env proc hist k a x y m ms hfetch hlt]
        have hshort : pageOf hist = hist ∧ restOf hist = [] := by
          apply pageOf_short
          rw [hpage]
          exact hlt
        simp only [List.filterMap_cons, hg1]
        rw [← hpage, hshort.1]
        exact hproc hist
      · rw [sweepLoop_step env proc hist k a x y m ms hfetch hlt]
        have ihr := ih (restOf hist) (restOf_le_of_page hist m ms n hpage hlen)
          (k + 1) (some m.id) (x + (proc (m :: ms)).dmCount) (y + (proc (m :: ms)).stCount)
        simp only [List.filterMap_cons, List.filterMap_append, hg1, hg2]
        rw [← Multiset.coe_add, hproc (m :: ms), ihr, ← hpage]
        simp only [pageOf, restOf]
        rw [hsplit hist (hist.length - 200)]
        exact add_comm _ _

theorem sweepLoop_extract_le (env : Env) (proc : List Msg → PageStep)
    (g : Ev → Option Nat) (F : List Msg → Multiset Nat)
    (hg1 : ∀ a p, g (Ev.fetch a p) = none) (hg2 : ∀ ms0, g (Ev.sleep ms0) = none)
    (hproc : ∀ page, ((proc page).evs.filterMap g : Multiset Nat) = F page)
    (hsplit : ∀ (l : List Msg) (i : Nat), F l = F (l.take i) + F (l.drop i)) :
    ∀ (n : Nat) (hist : List Msg), hist.length ≤ n → ∀ (k : Nat) (a : Option Nat) (x y : Nat),
      ((sweepLoop env proc hist k a x y).trace.filterMap g : Multiset Nat) ≤ F hist := by
  intro n
  induction n with
  | zero =>
    intro hist hlen k a x y
    have hnil : hist = [] := List.length_eq_zero.mp (Nat.le_zero.mp hlen)
    rw [sweepLoop_empty env proc hist k a x y (fetch_nil_of_short env k hist hnil)]
    simp [hg1]
  | succ n ih =>
    intro hist hlen k a x y
    cases hfetch : fetch_bot_messages (remoteFetch env k hist) with
    | nil =>
      rw [sweepLoop_empty env proc hist k a x y hfetch]
      simp [hg1]
    | cons m ms =>
      obtain ⟨hfe, hpage⟩ := fetch_cons_elim env k hist m ms hfetch
      by_cases hlt : (m :: ms).length < 200
      · rw [sweepLoop_last env proc hist k a x y m ms hfetch hlt]
        have hshort : pageOf hist = hist ∧ restOf hist = [] := by
          apply pageOf_short
          rw [hpage]
          exact hlt
        simp only [List.filterMap_cons, hg1]
        rw [← hpage, hshort.1]
        exact le_of_eq (hproc hist)
      · rw [sweepLoop_step env proc hist k a x y m ms hfetch hlt]
        have ihr := ih (restOf hist) (restOf_le_of_page hist m ms n hpage hlen)
          (k + 1) (some m.id) (x + (proc (m :: ms)).dmCount) (y + (proc (m :: ms)).stCount)
        simp only [List.filterMap_cons, List.filterMap_append, hg1, hg2]
        rw [← Multiset.coe_add, hproc (m :: ms), ← hpage] 
        rw [← hpage] at ihr
        have hgoal : F (pageOf hist) + F (restOf hist) = F hist := by
          simp only [pageOf, restOf]
          rw [hsplit hist (hist.length - 200)]
          exact add_comm _ _
        calc F (pageOf hist) + ↑(List.filterMap g (sweepLoop env proc (restOf hist) (k + 1)
                (some m.id) (x + (proc (pageOf hist)).dmCount)
                (y + (proc (pageOf hist)).stCount)).trace)
            ≤ F (pageOf hist) + F (restOf hist) := add_le_add_left ihr _
          _ = F hist := hgoal

/-! ### The schedule of fetches and delete calls ignores delete outcomes -/

theorem sweepLoop_shape (env env2 : Env) (proc proc2 : List Msg → PageStep)
    (hfe : ∀ j, env.fetchErr j = env2.fetchErr j)
    (hps : ∀ page, (proc page).evs.map evShape = (proc2 page).evs.map evShape) :
    ∀ (n : Nat) (hist : List Msg), hist.length ≤ n →
      ∀ (k : Nat) (a : Option Nat) (x y x2 y2 : Nat),
      (sweepLoop env proc hist k a x y).trace.map evShape
        = (sweepLoop env2 proc2 hist k a x2 y2).trace.map evShape := by
  intro n
  induction n with
  | zero =>
    intro hist hlen k a x y x2 y2
    have hnil : hist = [] := List.length_eq_zero.mp (Nat.le_zero.mp hlen)
    rw [sweepLoop_empty env proc hist k a x y (fetch_nil_of_short env k hist hnil),
      sweepLoop_empty env2 proc2 hist k a x2 y2 (fetch_nil_of_short env2 k hist hnil)]
  | succ n ih =>
    intro hist hlen k a x y x2 y2
    have hrem : remoteFetch env k hist = remoteFetch env2 k hist := by
      simp [remoteFetch, hfe k]
    cases hfetch : fetch_bot_messages (remoteFetch env k hist) with
    | nil =>
      have hfetch2 : fetch_bot_messages (remoteFetch env2 k hist) = [] := by
        rw [← hrem]
        exact hfetch
      rw [sweepLoop_empty env proc hist k a x y hfetch,
        sweepLoop_empty env2 proc2 hist k a x2 y2 hfetch2]
    | cons m ms =>
      have hfetch2 : fetch_bot_messages (remoteFetch env2 k hist) = m :: ms := by
        rw [← hrem]
        exact hfetch
      obtain ⟨hfe1, hpage⟩ := fetch_cons_elim env k hist m ms hfetch
      by_cases hlt : (m :: ms).length < 200
      · rw [sweepLoop_last env proc hist k a x y m ms hfetch hlt,
          sweepLoop_last env2 proc2 hist k a x2 y2 m ms hfetch2 hlt]
        simp only [List.map_cons, evShape]
        rw [hps (m :: ms)]
      · rw [sweepLoop_step env proc hist k a x y m ms hfetch hlt,
          sweepLoop_step env2 proc2 hist k a x2 y2 m ms hfetch2 hlt]
        have ihr := ih (restOf hist) (restOf_le_of_page hist m ms n hpage hlen)
          (k + 1) (some m.id) (x + (proc (m :: ms)).dmCount) (y + (proc (m :: ms)).stCount)
          (x2 + (proc2 (m :: ms)).dmCount) (y2 + (proc2 (m :: ms)).stCount)
        simp only [List.map_cons, List.map_append, evShape]
        rw [hps (m :: ms), ihr]

/-! ### Every delete call originates from a fetched message that its
loop marked for deletion -/

theorem sweepLoop_delete_src (env : Env) (proc : List Msg → PageStep)
    (Q : Msg → MsgType → DelOutcome → Prop)
    (hp : ∀ page i kd res, Ev.delete i kd res ∈ (proc page).evs →
      ∃ m, m ∈ page ∧ m.id = i ∧ Q m kd res) :
    ∀ (n : Nat) (hist : List Msg), hist.length ≤ n →
      ∀ (k : Nat) (a : Option Nat) (x y : Nat) (i : Nat) (kd : MsgType) (res : DelOutcome),
      Ev.delete i kd res ∈ (sweepLoop env proc hist k a x y).trace →
      ∃ m, m ∈ hist ∧ m.id = i ∧ Q m kd res := by
  intro n
  induction n with
  | zero =>
    intro hist hlen k a x y i kd res hmem
    have hnil : hist = [] := List.length_eq_zero.mp (Nat.le_zero.mp hlen)
    rw [sweepLoop_empty env proc hist k a x y (fetch_nil_of_short env k hist hnil)] at hmem
    simp at hmem
  | succ n ih =>
    intro hist hlen k a x y i kd res hmem
    cases hfetch : fetch_bot_messages (remoteFetch env k hist) with
    | nil =>
      rw [sweepLoop_empty env proc hist k a x y hfetch] at hmem
      simp at hmem
    | cons m ms =>
      obtain ⟨hfe, hpage⟩ := fetch_cons_elim env k hist m ms hfetch
      have hsub : ∀ m2, m2 ∈ (m :: ms) → m2 ∈ hist := by
        intro m2 hm2
        rw [← hpage] at hm2
        exact List.drop_subset _ _ hm2
      by_cases hlt : (m :: ms).length < 200
      · rw [sweepLoop_last env proc hist k a x y m ms hfetch hlt] at hmem
        simp only [List.mem_cons] at hmem
        rcases hmem with h | h
        · exact absurd h (by simp)
        · obtain ⟨m2, hm2, hid, hQ⟩ := hp (m :: ms) i kd res h
          exact ⟨m2, hsub m2 hm2, hid, hQ⟩
      · rw [sweepLoop_step env proc hist k a x y m ms hfetch hlt] at hmem
        simp only [List.mem_cons, List.mem_append] at hmem
        rcases hmem with h | h | h | h
        · exact absurd h (by simp)
        · obtain ⟨m2, hm2, hid, hQ⟩ := hp (m :: ms) i kd res h
          exact ⟨m2, hsub m2 hm2, hid, hQ⟩
        · exact absurd h (by simp)
        · have ihr := ih (restOf hist)
              (restOf_le_of_page hist m ms n hpage hlen) (k + 1) (some m.id)
              (x + (proc (m :: ms)).dmCount) (y + (proc (m :: ms)).stCount) i kd res
          obtain ⟨m2, hm2, hid, hQ⟩ := ihr h
          exact ⟨m2, List.take_subset _ _ hm2, hid, hQ⟩

/-! ### Concrete anchors always come from the head of a fetched
non-empty page -/

theorem sweepLoop_anchor_src (env : Env) (proc : List Msg → PageStep)
    (hp : ∀ page a0 p0, Ev.fetch a0 p0 ∉ (proc page).evs) :
    ∀ (n : Nat) (hist : List Msg), hist.length ≤ n →
      ∀ (k : Nat) (a : Option Nat) (x y : Nat) (i : Nat) (p : List Msg),
      Ev.fetch (some i) p ∈ (sweepLoop env proc hist k a x y).trace →
      a = some i ∨ ∃ a0 m rest0, Ev.fetch a0 (m :: rest0) ∈ (sweepLoop env proc hist k a x y).trace
        ∧ m.id = i := by
  intro n
  induction n with
  | zero =>
    intro hist hlen k a x y i p hmem
    have hnil : hist = [] := List.length_eq_zero.mp (Nat.le_zero.mp hlen)
    rw [sweepLoop_empty env proc hist k a x y (fetch_nil_of_short env k hist hnil)] at hmem
    simp at hmem
    left
    rw [hmem.1]
  | succ n ih =>
    intro hist hlen k a x y i p hmem
    cases hfetch : fetch_bot_messages (remoteFetch env k hist) with
    | nil =>
      rw [sweepLoop_empty env proc hist k a x y hfetch] at hmem
      simp at hmem
      left
      rw [hmem.1]
    | cons m ms =>
      obtain ⟨hfe, hpage⟩ := fetch_cons_elim env k hist m ms hfetch
      by_cases hlt : (m :: ms).length < 200
      · rw [sweepLoop_last env proc hist k a x y m ms hfetch hlt] at hmem ⊢
        simp only [List.mem_cons] at hmem
        rcases hmem with h | h
        · left
          cases h
          rfl
        · exact absurd h (hp (m :: ms) (some i) p)
      · rw [sweepLoop_step env proc hist k a x y m ms hfetch hlt] at hmem ⊢
        simp only [List.mem_cons, List.mem_append] at hmem
        rcases hmem with h | h | h | h
        · left
          cases h
          rfl
        · exact absurd h (hp (m :: ms) (some i) p)
        · exact absurd h (by simp)
        · have ihr := ih (restOf hist) (restOf_le_of_page hist m ms n hpage hlen)
            (k + 1) (some m.id) (x + (proc (m :: ms)).dmCount) (y + (proc (m :: ms)).stCount) i p
          rcases ihr h with hleft | hright
          · right
            refine ⟨a, m, ms, ?_, ?_⟩
            · simp
            · cases hleft
              rfl
          · right
            obtain ⟨a0, m2, rest0, hmem2, hid2⟩ := hright
            refine ⟨a0, m2, rest0, ?_, hid2⟩
            simp only [List.mem_cons, List.mem_append]
            right
            right
            right
            exact hmem2

/-! ### Every delete call is immediately preceded by the 150 ms sleep -/

theorem chainOk_of_paired_aux : ∀ (n : Nat) (l : List Ev), l.length ≤ n →
    pairedBatch l = true → ∀ prev, chainOk prev l = true := by
  intro n
  induction n with
  | zero =>
    intro l hl hp prev
    have : l = [] := List.length_eq_zero.mp (Nat.le_zero.mp hl)
    subst this
    rfl
  | succ n ih =>
    intro l hl hp prev
    cases l with
    | nil => rfl
    | cons e rest =>
      cases e with
      | fetch a0 p0 => simp [pairedBatch] at hp
      | delete i kd r => simp [pairedBatch] at hp
      | sleep ms0 =>
        cases rest with
        | nil => simp [pairedBatch] at hp
        | cons e2 rest2 =>
          cases e2 with
          | fetch a0 p0 => simp [pairedBatch] at hp
          | sleep ms2 => simp [pairedBatch] at hp
          | delete i kd r =>
            simp only [pairedBatch, Bool.and_eq_true, beq_iff_eq] at hp
            obtain ⟨h150, hrest⟩ := hp
            subst h150
            simp only [chainOk, isDeleteEv, if_false, if_true, Bool.and_eq_true]
            refine ⟨by simp, ?_, ?_⟩
            · simp
            · have hlen2 : rest2.length ≤ n := by
                simp at hl
                omega
              exact ih rest2 hlen2 hrest (Ev.delete i kd r)

theorem chainOk_of_paired (l : List Ev) (hp : pairedBatch l = true) (prev : Ev) :
    chainOk prev l = true :=
  chainOk_of_paired_aux l.length l (le_refl _) hp prev

theorem chainOk_append (A B : List Ev) : ∀ prev, chainOk prev A = true →
    (∀ p, chainOk p B = true) → chainOk prev (A ++ B) = true := by
  induction A with
  | nil =>
    intro prev hA hB
    exact hB prev
  | cons a A ih =>
    intro prev hA hB
    simp only [List.cons_append, chainOk, Bool.and_eq_true] at hA ⊢
    exact ⟨hA.1, ih a hA.2 hB⟩

theorem chainOk_of_sleepOk (l : List Ev) (h : sleep150Before l = true) (prev : Ev) :
    chainOk prev l = true := by
  cases l with
  | nil => rfl
  | cons e rest =>
    simp only [sleep150Before, Bool.and_eq_true, Bool.not_eq_true'] at h
    simp only [chainOk, h.1, if_false, Bool.and_eq_true]
    exact ⟨by simp, h.2⟩

theorem sweepLoop_sleepOk (env : Env) (proc : List Msg → PageStep)
    (hp : ∀ page, pairedBatch (proc page).evs = true) :
    ∀ (n : Nat) (hist : List Msg), hist.length ≤ n → ∀ (k : Nat) (a : Option Nat) (x y : Nat),
      sleep150Before (sweepLoop env proc hist k a x y).trace = true := by
  intro n
  induction n with
  | zero =>
    intro hist hlen k a x y
    have hnil : hist = [] := List.length_eq_zero.mp (Nat.le_zero.mp hlen)
    rw [sweepLoop_empty env proc hist k a x y (fetch_nil_of_short env k hist hnil)]
    simp [sleep150Before, isDeleteEv, chainOk]
  | succ n ih =>
    intro hist hlen k a x y
    cases hfetch : fetch_bot_messages (remoteFetch env k hist) with
    | nil =>
      rw [sweepLoop_empty env proc hist k a x y hfetch]
      simp [sleep150Before, isDeleteEv, chainOk]
    | cons m ms =>
      obtain ⟨hfe, hpage⟩ := fetch_cons_elim env k hist m ms hfetch
      by_cases hlt : (m :: ms).length < 200
      · rw [sweepLoop_last env proc hist k a x y m ms hfetch hlt]
        simp only [sleep150Before, isDeleteEv, Bool.not_false, Bool.true_and]
        exact chainOk_of_paired _ (hp (m :: ms)) _
      · rw [sweepLoop_step env proc hist k a x y m ms hfetch hlt]
        have ihr := ih (restOf hist) (restOf_le_of_page hist m ms n hpage hlen)
          (k + 1) (some m.id) (x + (proc (m :: ms)).dmCount) (y + (proc (m :: ms)).stCount)
        simp only [sleep150Before, isDeleteEv, Bool.not_false, Bool.true_and]
        apply chainOk_append
        · exact chainOk_of_paired _ (hp (m :: ms)) _
        · intro p
          simp only [chainOk, isDeleteEv, if_false, Bool.and_eq_true]
          refine ⟨by simp, ?_⟩
          exact chainOk_of_sleepOk _ ihr _

/-! ### Final counters over an error-free run, as a filter of the history -/

theorem sweepLoop_dm_filter (env : Env) (proc : List Msg → PageStep) (qq : Msg → Bool)
    (hp : ∀ page, (proc page).dmCount = (page.filter qq).length)
    (hf : ∀ j, env.fetchErr j = false) :
    ∀ (n : Nat) (hist : List Msg), hist.length ≤ n → ∀ (k : Nat) (a : Option Nat) (x y : Nat),
      (sweepLoop env proc hist k a x y).dm_deleted = x + (hist.filter qq).length := by
  intro n
  induction n with
  | zero =>
    intro hist hlen k a x y
    have hnil : hist = [] := List.length_eq_zero.mp (Nat.le_zero.mp hlen)
    rw [sweepLoop_empty env proc hist k a x y (fetch_nil_of_short env k hist hnil)]
    simp [hnil]
  | succ n ih =>
    intro hist hlen k a x y
    cases hfetch : fetch_bot_messages (remoteFetch env k hist) with
    | nil =>
      rw [sweepLoop_empty env proc hist k a x y hfetch]
      have hnil : hist = [] := by
        rw [← pageOf_eq_nil_iff]
        have h0 := hf k
        simp only [remoteFetch, h0, Bool.false_eq_true, if_false, fetch_bot_messages] at hfetch
        exact hfetch
      simp [hnil]
    | cons m ms =>
      obtain ⟨hfe, hpage⟩ := fetch_cons_elim env k hist m ms hfetch
      by_cases hlt : (m :: ms).length < 200
      · rw [sweepLoop_last env proc hist k a x y m ms hfetch hlt]
        have hshort : pageOf hist = hist ∧ restOf hist = [] := by
          apply pageOf_short
          rw [hpage]
          exact hlt
        rw [hp (m :: ms), ← hpage, hshort.1]
      · rw [sweepLoop_step env proc hist k a x y m ms hfetch hlt]
        have ihr := ih (restOf hist) (restOf_le_of_page hist m ms n hpage hlen)
          (k + 1) (some m.id) (x + (proc (m :: ms)).dmCount) (y + (proc (m :: ms)).stCount)
        rw [ihr, hp (m :: ms), ← hpage]
        have hcat : (restOf hist).filter qq ++ (pageOf hist).filter qq = hist.filter qq := by
          rw [← List.filter_append, restOf_append_pageOf]
        have := congrArg List.length hcat
        simp only [List.length_append] at this
        omega

theorem sweepLoop_st_filter (env : Env) (proc : List Msg → PageStep) (qq : Msg → Bool)
    (hp : ∀ page, (proc page).stCount = (page.filter qq).length)
    (hf : ∀ j, env.fetchErr j = false) :
    ∀ (n : Nat) (hist : List Msg), hist.length ≤ n → ∀ (k : Nat) (a : Option Nat) (x y : Nat),
      (sweepLoop env proc hist k a x y).stream_deleted = y + (hist.filter qq).length := by
  intro n
  induction n with
  | zero =>
    intro hist hlen k a x y
    have hnil : hist = [] := List.length_eq_zero.mp (Nat.le_zero.mp hlen)
    rw [sweepLoop_empty env proc hist k a x y (fetch_nil_of_short env k hist hnil)]
    simp [hnil]
  | succ n ih =>
    intro hist hlen k a x y
    cases hfetch : fetch_bot_messages (remoteFetch env k hist) with
    | nil =>
      rw [sweepLoop_empty env proc hist k a x y hfetch]
      have hnil : hist = [] := by
        rw [← pageOf_eq_nil_iff]
        have h0 := hf k
        simp only [remoteFetch, h0, Bool.false_eq_true, if_false, fetch_bot_messages] at hfetch
        exact hfetch
      simp [hnil]
    | cons m ms =>
      obtain ⟨hfe, hpage⟩ := fetch_cons_elim env k hist m ms hfetch
      by_cases hlt : (m :: ms).length < 200
      · rw [sweepLoop_last env proc hist k a x y m ms hfetch hlt]
        have hshort : pageOf hist = hist ∧ restOf hist = [] := by
          apply pageOf_short
          rw [hpage]
          exact hlt
        rw [hp (m :: ms), ← hpage, hshort.1]
      · rw [sweepLoop_step env proc hist k a x y m ms hfetch hlt]
        have ihr := ih (restOf hist) (restOf_le_of_page hist m ms n hpage hlen)
          (k + 1) (some m.id) (x + (proc (m :: ms)).dmCount) (y + (proc (m :: ms)).stCount)
        rw [ihr, hp (m :: ms), ← hpage]
        have hcat : (restOf hist).filter qq ++ (pageOf hist).filter qq = hist.filter qq := by
          rw [← List.filter_append, restOf_append_pageOf]
        have := congrArg List.length hcat
        simp only [List.length_append] at this
        omega

/-! ### Properties of the three page processors -/

theorem pairedBatch_append_aux : ∀ (n : Nat) (A : List Ev), A.length ≤ n →
    ∀ (B : List Ev), pairedBatch A = true → pairedBatch B = true →
    pairedBatch (A ++ B) = true := by
  intro n
  induction n with
  | zero =>
    intro A hl B hA hB
    have : A = [] := List.length_eq_zero.mp (Nat.le_zero.mp hl)
    subst this
    simpa using hB
  | succ n ih =>
    intro A hl B hA hB
    cases A with
    | nil => simpa using hB
    | cons e rest =>
      cases e with
      | fetch a0 p0 => simp [pairedBatch] at hA
      | delete i kd r => simp [pairedBatch] at hA
      | sleep ms0 =>
        cases rest with
        | nil => simp [pairedBatch] at hA
        | cons e2 rest2 =>
          cases e2 with
          | fetch a0 p0 => simp [pairedBatch] at hA
          | sleep ms2 => simp [pairedBatch] at hA
          | delete i kd r =>
            simp only [pairedBatch, Bool.and_eq_true, beq_iff_eq] at hA
            obtain ⟨h150, hrest⟩ := hA
            subst h150
            simp only [List.cons_append, pairedBatch, Bool.and_eq_true, beq_iff_eq]
            refine ⟨trivial, ?_⟩
            have hlen2 : rest2.length ≤ n := by
              simp at hl
              omega
            exact ih rest2 hlen2 B hrest hB

theorem pairedBatch_append (A B : List Ev) (hA : pairedBatch A = true)
    (hB : pairedBatch B = true) : pairedBatch (A ++ B) = true :=
  pairedBatch_append_aux A.length A (le_refl _) B hA hB

theorem procPage_dm_succCount (env : Env) (page : List Msg) :
    (Alert.procPage env page).dmCount
      = (Alert.procPage env page).evs.countP (isSuccessDel MsgType.priv) := by
  have h1 := delBatch_succCount env (Alert.dmShouldDelete env.now) MsgType.priv page
  have h2 := delBatch_succCount_ne env (Alert.stShouldDelete env.now) MsgType.stream
    MsgType.priv (by simp) page
  simp [Alert.procPage, Alert.delete_old_direct_messages, Alert.delete_old_stream_messages,
    List.countP_append, h1, h2]

theorem procPage_st_succCount (env : Env) (page : List Msg) :
    (Alert.procPage env page).stCount
      = (Alert.procPage env page).evs.countP (isSuccessDel MsgType.stream) := by
  have h1 := delBatch_succCount env (Alert.stShouldDelete env.now) MsgType.stream page
  have h2 := delBatch_succCount_ne env (Alert.dmShouldDelete env.now) MsgType.priv
    MsgType.stream (by simp) page
  simp [Alert.procPage, Alert.delete_old_direct_messages, Alert.delete_old_stream_messages,
    List.countP_append, h1, h2]

theorem procPage_dm_le (env : Env) (page : List Msg) :
    (Alert.procPage env page).evs.countP (isSuccessDel MsgType.priv)
      ≤ (page.filter (Alert.dmShouldDelete env.now)).length := by
  rw [← procPage_dm_succCount]
  have h1 := delBatch_succCount_le env (Alert.dmShouldDelete env.now) MsgType.priv page
  have h2 := delBatch_succCount env (Alert.dmShouldDelete env.now) MsgType.priv page
  simp [Alert.procPage, Alert.delete_old_direct_messages]
  omega

theorem procPage_st_le (env : Env) (page : List Msg) :
    (Alert.procPage env page).evs.countP (isSuccessDel MsgType.stream)
      ≤ (page.filter (Alert.stShouldDelete env.now)).length := by
  rw [← procPage_st_succCount]
  have h1 := delBatch_succCount_le env (Alert.stShouldDelete env.now) MsgType.stream page
  have h2 := delBatch_succCount env (Alert.stShouldDelete env.now) MsgType.stream page
  simp [Alert.procPage, Alert.delete_old_stream_messages]
  omega

theorem procPage_seen0 (env : Env) (page : List Msg) (q2 : Msg → Bool) :
    qualSeen q2 (Alert.procPage env page).evs = 0 := by
  simp [Alert.procPage, Alert.delete_old_direct_messages, Alert.delete_old_stream_messages,
    qualSeen_append, delBatch_qualSeen]

theorem procPage_no_fetch (env : Env) (page : List Msg) (a : Option Nat) (p : List Msg) :
    Ev.fetch a p ∉ (Alert.procPage env page).evs := by
  simp only [Alert.procPage, Alert.delete_old_direct_messages,
    Alert.delete_old_stream_messages, List.mem_append]
  push_neg
  exact ⟨delBatch_no_fetch env _ MsgType.priv page a p,
    delBatch_no_fetch env _ MsgType.stream page a p⟩

theorem procPage_paired (env : Env) (page : List Msg) :
    pairedBatch (Alert.procPage env page).evs = true := by
  apply pairedBatch_append
  · exact delBatch_paired env _ MsgType.priv page
  · exact delBatch_paired env _ MsgType.stream page

theorem procPage_delete_src (env : Env) (page : List Msg) (i : Nat) (kd : MsgType)
    (res : DelOutcome)
    (hmem : Ev.delete i kd res ∈ (Alert.procPage env page).evs) :
    ∃ m, m ∈ page ∧ m.id = i ∧
      ((kd = MsgType.priv ∧ Alert.dmShouldDelete env.now m = true) ∨
       (kd = MsgType.stream ∧ Alert.stShouldDelete env.now m = true)) := by
  simp only [Alert.procPage, Alert.delete_old_direct_messages,
    Alert.delete_old_stream_messages, List.mem_append] at hmem
  rcases hmem with h | h
  · obtain ⟨m, hm, hid, hkd, hq, hres⟩ := delBatch_mem_delete env _ MsgType.priv page i kd res h
    exact ⟨m, hm, hid, Or.inl ⟨hkd, hq⟩⟩
  · obtain ⟨m, hm, hid, hkd, hq, hres⟩ := delBatch_mem_delete env _ MsgType.stream page i kd res h
    exact ⟨m, hm, hid, Or.inr ⟨hkd, hq⟩⟩

theorem procPage_shape (env env2 : Env) (hnow : env.now = env2.now) (page : List Msg) :
    (Alert.procPage env page).evs.map evShape = (Alert.procPage env2 page).evs.map evShape := by
  simp only [Alert.procPage, Alert.delete_old_direct_messages,
    Alert.delete_old_stream_messages, List.map_append, hnow]
  rw [delBatch_shape env env2 _ MsgType.priv page, delBatch_shape env env2 _ MsgType.stream page]

theorem dmProc_dm_succCount (env : Env) (page : List Msg) :
    (DeleteNoti.dmProc env page).dmCount
      = (DeleteNoti.dmProc env page).evs.countP (isSuccessDel MsgType.priv) := by
  have h1 := delBatch_succCount env (DeleteNoti.dmShouldDelete env.now) MsgType.priv page
  simp [DeleteNoti.dmProc, h1]

theorem dmProc_st_succCount (env : Env) (page : List Msg) :
    (DeleteNoti.dmProc env page).stCount
      = (DeleteNoti.dmProc env page).evs.countP (isSuccessDel MsgType.stream) := by
  have h2 := delBatch_succCount_ne env (DeleteNoti.dmShouldDelete env.now) MsgType.priv
    MsgType.stream (by simp) page
  simp [DeleteNoti.dmProc, h2]

theorem stProc_st_succCount (env : Env) (page : List Msg) :
    (DeleteNoti.stProc env page).stCount
      = (DeleteNoti.stProc env page).evs.countP (isSuccessDel MsgType.stream) := by
  have h1 := delBatch_succCount env (DeleteNoti.stShouldDelete env.now) MsgType.stream page
  simp [DeleteNoti.stProc, h1]

theorem stProc_dm_succCount (env : Env) (page : List Msg) :
    (DeleteNoti.stProc env page).dmCount
      = (DeleteNoti.stProc env page).evs.countP (isSuccessDel MsgType.priv) := by
  have h2 := delBatch_succCount_ne env (DeleteNoti.stShouldDelete env.now) MsgType.stream
    MsgType.priv (by simp) page
  simp [DeleteNoti.stProc, h2]

theorem dmProc_paired (env : Env) (page : List Msg) :
    pairedBatch (DeleteNoti.dmProc env page).evs = true :=
  delBatch_paired env _ MsgType.priv page

theorem stProc_paired (env : Env) (page : List Msg) :
    pairedBatch (DeleteNoti.stProc env page).evs = true :=
  delBatch_paired env _ MsgType.stream page

theorem stProc_delete_src (env : Env) (page : List Msg) (i : Nat) (kd : MsgType)
    (res : DelOutcome)
    (hmem : Ev.delete i kd res ∈ (DeleteNoti.stProc env page).evs) :
    ∃ m, m ∈ page ∧ m.id = i ∧ DeleteNoti.stShouldDelete env.now m = true := by
  obtain ⟨m, hm, hid, hkd, hq, hres⟩ := delBatch_mem_delete env _ MsgType.stream page i kd res hmem
  exact ⟨m, hm, hid, hq⟩

/-! ### Claims -/

/-- C1, counterexample: the claim states that a direct message aged 48
hours or less is always kept, but the direct pass of `delete_noti.py`
(`DM_DELETE_OLDER_THAN = timedelta(hours=24)`) deletes a direct message
aged 100000 s (about 27.8 hours), which does not exceed 48 hours. -/
theorem c1_counterexample :
    (DeleteNoti.delete_old_direct_messages env0 [m0]).dm_deleted = 1 ∧
    ¬(Alert.DM_DELETE_OLDER_THAN < env0.now - m0.timestamp) := by
  constructor
  · simp [DeleteNoti.delete_old_direct_messages, DeleteNoti.dmProc, sweepLoop, remoteFetch,
      fetch_bot_messages, pageOf, env0, m0, delBatch, DeleteNoti.dmShouldDelete,
      DeleteNoti.DM_DELETE_OLDER_THAN]
  · simp [Alert.DM_DELETE_OLDER_THAN, env0, m0]

/-- C1, amended: the classifier of `alert.py` marks a message delete
iff it is private and its age strictly exceeds that file's direct
maximum age of 48 hours; the direct pass of `delete_noti.py` instead
marks a (narrowed-to-private) message delete iff its age strictly
exceeds that file's direct maximum age of 24 hours. -/
theorem c1_direct_cutoff (now : Int) (m : Msg) :
    (Alert.dmShouldDelete now m = true ↔
      (m.type = MsgType.priv ∧ Alert.DM_DELETE_OLDER_THAN < now - m.timestamp)) ∧
    (DeleteNoti.dmShouldDelete now m = true ↔
      DeleteNoti.DM_DELETE_OLDER_THAN < now - m.timestamp) := by
  constructor
  · constructor
    · intro h
      simp [Alert.dmShouldDelete, Alert.DM_DELETE_OLDER_THAN] at h
      refine ⟨h.1, ?_⟩
      simp only [Alert.DM_DELETE_OLDER_THAN]
      omega
    · intro h
      have h2 := h.2
      simp only [Alert.DM_DELETE_OLDER_THAN] at h2
      simp [Alert.dmShouldDelete, Alert.DM_DELETE_OLDER_THAN, h.1]
      omega
  · constructor
    · intro h
      simp [DeleteNoti.dmShouldDelete, DeleteNoti.DM_DELETE_OLDER_THAN] at h
      simp only [DeleteNoti.DM_DELETE_OLDER_THAN]
      omega
    · intro h
      simp only [DeleteNoti.DM_DELETE_OLDER_THAN] at h
      simp [DeleteNoti.dmShouldDelete, DeleteNoti.DM_DELETE_OLDER_THAN]
      omega

/-- C3: for every finite history, each sweep driver issues at most
⌈history size / 200⌉ + 1 page fetches before reaching its final state
(the Nat ceiling of n / 200 being (n + 199) / 200). -/
theorem c3_termination (env : Env) (hist : List Msg) :
    (Alert.run_delete_noti env hist).fetches ≤ (hist.length + 199) / 200 + 1 ∧
    (DeleteNoti.delete_old_direct_messages env hist).fetches
      ≤ (hist.length + 199) / 200 + 1 ∧
    (DeleteNoti.delete_old_stream_messages env hist).fetches
      ≤ (hist.length + 199) / 200 + 1 := by
  refine ⟨?_, ?_, ?_⟩
  · have h := sweepLoop_fetches_le env (Alert.procPage env) hist.length hist (le_refl _)
      0 none 0 0
    simpa [Alert.run_delete_noti] using h
  · have hlen : (hist.filter (fun m => m.type == MsgType.priv)).length ≤ hist.length :=
      List.length_filter_le _ _
    have h := sweepLoop_fetches_le env (DeleteNoti.dmProc env)
      (hist.filter (fun m => m.type == MsgType.priv)).length
      (hist.filter (fun m => m.type == MsgType.priv)) (le_refl _) 0 none 0 0
    simp only [DeleteNoti.delete_old_direct_messages]
    omega
  · have hlen : (hist.filter (fun m => m.type == MsgType.stream)).length ≤ hist.length :=
      List.length_filter_le _ _
    have h := sweepLoop_fetches_le env (DeleteNoti.stProc env)
      (hist.filter (fun m => m.type == MsgType.stream)).length
      (hist.filter (fun m => m.type == MsgType.stream)) (le_refl _) 0 none 0 0
    simp only [DeleteNoti.delete_old_stream_messages]
    omega

/-- C4: when the fetched page is shorter than the requested 200 (and
the remote fetch did not fail), the sweep makes no further fetch call
(this fetch is its last), processes exactly that page — the trace is
the fetch followed by the page's deletion events, the counters grow by
the page's counts, and the delete calls are exactly the qualifying
direct then stream messages of the page — and stops. -/
theorem c4_short_page (env : Env) (hist : List Msg) (k : Nat) (a : Option Nat) (x y : Nat)
    (hlt : (pageOf hist).length < 200) (hf : env.fetchErr k = false) :
    (sweepLoop env (Alert.procPage env) hist k a x y).fetches = k + 1 ∧
    (sweepLoop env (Alert.procPage env) hist k a x y).trace.countP isFetchEv = 1 ∧
    (sweepLoop env (Alert.procPage env) hist k a x y).trace
      = Ev.fetch a (pageOf hist) :: (Alert.procPage env (pageOf hist)).evs ∧
    (sweepLoop env (Alert.procPage env) hist k a x y).dm_deleted
      = x + (Alert.procPage env (pageOf hist)).dmCount ∧
    (sweepLoop env (Alert.procPage env) hist k a x y).stream_deleted
      = y + (Alert.procPage env (pageOf hist)).stCount ∧
    (sweepLoop env (Alert.procPage env) hist k a x y).trace.filterMap delIdOf
      = ((pageOf hist).filter (Alert.dmShouldDelete env.now)).map (fun m => m.id)
        ++ ((pageOf hist).filter (Alert.stShouldDelete env.now)).map (fun m => m.id) := by
  have hfetch : fetch_bot_messages (remoteFetch env k hist) = pageOf hist := by
    simp [remoteFetch, hf, fetch_bot_messages]
  have hnofetch : ∀ page, (Alert.procPage env page).evs.countP isFetchEv = 0 := by
    intro page
    rw [List.countP_eq_zero]
    intro e hmem he
    cases e with
    | fetch a0 p0 => exact procPage_no_fetch env page a0 p0 hmem
    | sleep ms0 => simp [isFetchEv] at he
    | delete i kd r => simp [isFetchEv] at he
  have hids : ∀ page, (Alert.procPage env page).evs.filterMap delIdOf
      = (page.filter (Alert.dmShouldDelete env.now)).map (fun m => m.id)
        ++ (page.filter (Alert.stShouldDelete env.now)).map (fun m => m.id) := by
    intro page
    simp [Alert.procPage, Alert.delete_old_direct_messages, Alert.delete_old_stream_messages,
      List.filterMap_append, delBatch_delIds]
  cases hpage : pageOf hist with
  | nil =>
    rw [hpage] at hfetch
    rw [sweepLoop_empty env (Alert.procPage env) hist k a x y hfetch]
    refine ⟨rfl, by simp [isFetchEv], ?_, ?_, ?_, ?_⟩ <;>
      simp [Alert.procPage, Alert.delete_old_direct_messages,
        Alert.delete_old_stream_messages, delBatch, delIdOf]
  | cons m ms =>
    rw [hpage] at hfetch hlt
    rw [sweepLoop_last env (Alert.procPage env) hist k a x y m ms hfetch hlt]
    refine ⟨rfl, ?_, rfl, rfl, rfl, ?_⟩
    · simp [List.countP_cons, isFetchEv, hnofetch (m :: ms)]
    · simp only [List.filterMap_cons, delIdOf, hids (m :: ms)]

/-- C4 witness at a one-message history. -/
theorem c4_short_page_witness :
    (sweepLoop env0 (Alert.procPage env0) [mOld] 0 none 0 0).fetches = 0 + 1 :=
  (c4_short_page env0 [mOld] 0 none 0 0 (by decide) rfl).1

/-- C6: a remote fetch failure (non-success response or exception)
yields the empty page from the fetcher, which never raises; the sweep
then stops exactly as on exhaustion — its result equals the run on an
exhausted history — and the caller receives the counters accumulated so
far. -/
theorem c6_fetch_failure (env : Env) (proc : List Msg → PageStep) (hist : List Msg)
    (k : Nat) (a : Option Nat) (x y : Nat) (hf : env.fetchErr k = true) :
    fetch_bot_messages FetchOutcome.httpError = [] ∧
    fetch_bot_messages FetchOutcome.exn = [] ∧
    sweepLoop env proc hist k a x y = ⟨x, y, k + 1, [Ev.fetch a []]⟩ ∧
    sweepLoop env proc hist k a x y = sweepLoop env proc [] k a x y := by
  have hfetch : fetch_bot_messages (remoteFetch env k hist) = [] := by
    simp [remoteFetch, hf, fetch_bot_messages]
  have hfetch0 : fetch_bot_messages (remoteFetch env k []) = [] :=
    fetch_nil_of_short env k [] rfl
  exact ⟨rfl, rfl, sweepLoop_empty env proc hist k a x y hfetch,
    (sweepLoop_empty env proc hist k a x y hfetch).trans
      (sweepLoop_empty env proc [] k a x y hfetch0).symm⟩

/-- C6 witness: under an always-failing remote, a run from accumulated
counters 3 and 4 returns exactly those counters. -/
theorem c6_fetch_failure_witness :
    sweepLoop envErr (Alert.procPage envErr) [m0] 0 none 3 4
      = ⟨3, 4, 1, [Ev.fetch none []]⟩ :=
  (c6_fetch_failure envErr (Alert.procPage envErr) [m0] 0 none 3 4 rfl).2.2.1

/-- C9: in every sweep of either file, each delete call is immediately
preceded in the trace by the 150 ms inter-call sleep. -/
theorem c9_rate_limit (env : Env) (hist : List Msg) :
    sleep150Before (Alert.run_delete_noti env hist).trace = true ∧
    sleep150Before (DeleteNoti.delete_old_direct_messages env hist).trace = true ∧
    sleep150Before (DeleteNoti.delete_old_stream_messages env hist).trace = true := by
  refine ⟨?_, ?_, ?_⟩
  · exact sweepLoop_sleepOk env (Alert.procPage env) (procPage_paired env)
      hist.length hist (le_refl _) 0 none 0 0
  · exact sweepLoop_sleepOk env (DeleteNoti.dmProc env) (dmProc_paired env)
      (hist.filter (fun m => m.type == MsgType.priv)).length
      (hist.filter (fun m => m.type == MsgType.priv)) (le_refl _) 0 none 0 0
  · exact sweepLoop_sleepOk env (DeleteNoti.stProc env) (stProc_paired env)
      (hist.filter (fun m => m.type == MsgType.stream)).length
      (hist.filter (fun m => m.type == MsgType.stream)) (le_refl _) 0 none 0 0

/-- C10: an empty page ends the sweep with the counters and cursor it
had (the returned state is exactly the accumulated one and the trace
gains only the empty fetch), so the head of an empty page is never
read; and every concrete cursor value ever fetched at is the id of the
head (oldest element) of some non-empty page previously fetched. -/
theorem c10_cursor_safety (env : Env) (hist : List Msg) :
    (∀ (proc : List Msg → PageStep) (k : Nat) (a : Option Nat) (x y : Nat),
      fetch_bot_messages (remoteFetch env k hist) = [] →
      sweepLoop env proc hist k a x y = ⟨x, y, k + 1, [Ev.fetch a []]⟩) ∧
    (∀ (i : Nat) (p : List Msg),
      Ev.fetch (some i) p ∈ (Alert.run_delete_noti env hist).trace →
      ∃ a0 m rest0, Ev.fetch a0 (m :: rest0) ∈ (Alert.run_delete_noti env hist).trace
        ∧ m.id = i) := by
  constructor
  · intro proc k a x y hm
    exact sweepLoop_empty env proc hist k a x y hm
  · intro i p hmem
    have h := sweepLoop_anchor_src env (Alert.procPage env) (procPage_no_fetch env)
      hist.length hist (le_refl _) 0 none 0 0 i p hmem
    rcases h with h | h
    · exact absurd h (by simp)
    · exact h

/-- C10 witness: with a failing remote the first page is empty and the
run returns its accumulated counters unchanged. -/
theorem c10_cursor_safety_witness :
    sweepLoop envErr (Alert.procPage envErr) [m0] 5 none 7 8
      = ⟨7, 8, 6, [Ev.fetch none []]⟩ :=
  (c10_cursor_safety envErr [m0]).1 (Alert.procPage envErr) 5 none 7 8 rfl

/-- C5: across any run state of the unified sweep of `alert.py`, the
accumulated counters never decrease; the final counters exceed the
accumulated ones by exactly the number of successful delete events of
the matching kind in the trace (so a counter moves only on a delete
call that returned success); and those successful deletes never exceed
the number of delete-qualifying messages of that kind seen across all
fetched pages. -/
theorem c5_counters (env : Env) (hist : List Msg) (k : Nat) (a : Option Nat) (x y : Nat) :
    (x ≤ (sweepLoop env (Alert.procPage env) hist k a x y).dm_deleted ∧
     y ≤ (sweepLoop env (Alert.procPage env) hist k a x y).stream_deleted) ∧
    ((sweepLoop env (Alert.procPage env) hist k a x y).dm_deleted
        = x + (sweepLoop env (Alert.procPage env) hist k a x y).trace.countP
            (isSuccessDel MsgType.priv) ∧
     (sweepLoop env (Alert.procPage env) hist k a x y).stream_deleted
        = y + (sweepLoop env (Alert.procPage env) hist k a x y).trace.countP
            (isSuccessDel MsgType.stream)) ∧
    ((sweepLoop env (Alert.procPage env) hist k a x y).trace.countP
        (isSuccessDel MsgType.priv)
        ≤ qualSeen (Alert.dmShouldDelete env.now)
            (sweepLoop env (Alert.procPage env) hist k a x y).trace ∧
     (sweepLoop env (Alert.procPage env) hist k a x y).trace.countP
        (isSuccessDel MsgType.stream)
        ≤ qualSeen (Alert.stShouldDelete env.now)
            (sweepLoop env (Alert.procPage env) hist k a x y).trace) := by
  have hdm := sweepLoop_dm_succ env (Alert.procPage env) (procPage_dm_succCount env)
    hist.length hist (le_refl _) k a x y
  have hst := sweepLoop_st_succ env (Alert.procPage env) (procPage_st_succCount env)
    hist.length hist (le_refl _) k a x y
  have hq1 := sweepLoop_succ_le_seen env (Alert.procPage env) MsgType.priv
    (Alert.dmShouldDelete env.now) (procPage_dm_le env)
    (fun page => procPage_seen0 env page _) hist.length hist (le_refl _) k a x y
  have hq2 := sweepLoop_succ_le_seen env (Alert.procPage env) MsgType.stream
    (Alert.stShouldDelete env.now) (procPage_st_le env)
    (fun page => procPage_seen0 env page _) hist.length hist (le_refl _) k a x y
  exact ⟨⟨by omega, by omega⟩, ⟨hdm, hst⟩, hq1, hq2⟩

/-- C2: the stream classifier of both files always keeps a message of
the exempt `("spring", "Txt")` pair, and deletes a non-exempt stream
message iff its age strictly exceeds 3 days; moreover, over any history
with distinct ids, no sweep of either file ever issues a delete call on
an exempt stream message; and the channel counter of the unified sweep
counts exactly the successful stream delete calls of its trace, so an
exempt message is also never counted. -/
theorem c2_exemption :
    (∀ (now : Int) (m : Msg), m.type = MsgType.stream →
      (isExcluded m = true →
        Alert.stShouldDelete now m = false ∧ DeleteNoti.stShouldDelete now m = false) ∧
      (isExcluded m = false →
        ((Alert.stShouldDelete now m = true ↔
            Alert.STREAM_DELETE_OLDER_THAN < now - m.timestamp) ∧
         (DeleteNoti.stShouldDelete now m = true ↔
            DeleteNoti.STREAM_DELETE_OLDER_THAN < now - m.timestamp)))) ∧
    (∀ (env : Env) (hist : List Msg), (hist.map (fun m => m.id)).Nodup →
      ∀ m, m ∈ hist → m.type = MsgType.stream → isExcluded m = true →
        ∀ (kd : MsgType) (res : DelOutcome),
          Ev.delete m.id kd res ∉ (Alert.run_delete_noti env hist).trace ∧
          Ev.delete m.id kd res ∉ (DeleteNoti.delete_old_stream_messages env hist).trace) ∧
    (∀ (env : Env) (hist : List Msg),
      (Alert.run_delete_noti env hist).stream_deleted
        = (Alert.run_delete_noti env hist).trace.countP (isSuccessDel MsgType.stream)) := by
  refine ⟨?_, ?_, ?_⟩
  · intro now m htype
    constructor
    · intro hexc
      simp only [isExcluded, Bool.and_eq_true, beq_iff_eq] at hexc
      constructor
      · simp [Alert.stShouldDelete, hexc.1, hexc.2, Alert.EXCLUDED_STREAM,
          Alert.EXCLUDED_TOPIC]
      · simp [DeleteNoti.stShouldDelete, hexc.1, hexc.2, Alert.EXCLUDED_STREAM,
          Alert.EXCLUDED_TOPIC, DeleteNoti.EXCLUDED_STREAM, DeleteNoti.EXCLUDED_TOPIC]
    · intro hexc
      have hexcA : (m.display_recipient == Alert.EXCLUDED_STREAM
          && m.subject == Alert.EXCLUDED_TOPIC) = false := by
        simpa [isExcluded] using hexc
      have hexcD : (m.display_recipient == DeleteNoti.EXCLUDED_STREAM
          && m.subject == DeleteNoti.EXCLUDED_TOPIC) = false := by
        simpa [isExcluded, Alert.EXCLUDED_STREAM, Alert.EXCLUDED_TOPIC,
          DeleteNoti.EXCLUDED_STREAM, DeleteNoti.EXCLUDED_TOPIC] using hexc
      constructor
      · constructor
        · intro h
          simp [Alert.stShouldDelete, Alert.STREAM_DELETE_OLDER_THAN, hexcA, htype] at h
          simp only [Alert.STREAM_DELETE_OLDER_THAN]
          omega
        · intro h
          simp only [Alert.STREAM_DELETE_OLDER_THAN] at h
          simp [Alert.stShouldDelete, Alert.STREAM_DELETE_OLDER_THAN, hexcA, htype]
          omega
      · constructor
        · intro h
          simp [DeleteNoti.stShouldDelete, DeleteNoti.STREAM_DELETE_OLDER_THAN, hexcD,
            htype] at h
          simp only [DeleteNoti.STREAM_DELETE_OLDER_THAN]
          omega
        · intro h
          simp only [DeleteNoti.STREAM_DELETE_OLDER_THAN] at h
          simp [DeleteNoti.stShouldDelete, DeleteNoti.STREAM_DELETE_OLDER_THAN, hexcD, htype]
          omega
  · intro env hist hnodup m hm htype hexc kd res
    have hexcA : (m.display_recipient == Alert.EXCLUDED_STREAM
        && m.subject == Alert.EXCLUDED_TOPIC) = true := by
      simpa [isExcluded] using hexc
    have hexcD : (m.display_recipient == DeleteNoti.EXCLUDED_STREAM
        && m.subject == DeleteNoti.EXCLUDED_TOPIC) = true := by
      simpa [isExcluded, Alert.EXCLUDED_STREAM, Alert.EXCLUDED_TOPIC,
        DeleteNoti.EXCLUDED_STREAM, DeleteNoti.EXCLUDED_TOPIC] using hexc
    constructor
    · intro hmem
      have hsrc := sweepLoop_delete_src env (Alert.procPage env)
        (fun m2 kd2 res2 => (kd2 = MsgType.priv ∧ Alert.dmShouldDelete env.now m2 = true) ∨
          (kd2 = MsgType.stream ∧ Alert.stShouldDelete env.now m2 = true))
        (fun page i kd2 res2 hmem2 => procPage_delete_src env page i kd2 res2 hmem2)
        hist.length hist (le_refl _) 0 none 0 0 m.id kd res hmem
      obtain ⟨m2, hm2, hid, hQ⟩ := hsrc
      have hmeq : m2 = m := List.inj_on_of_nodup_map hnodup hm2 hm hid
      rw [hmeq] at hQ
      rcases hQ with ⟨hkd, hq⟩ | ⟨hkd, hq⟩
      · simp [Alert.dmShouldDelete, htype] at hq
      · simp [Alert.stShouldDelete, hexcA] at hq
    · intro hmem
      have hsrc := sweepLoop_delete_src env (DeleteNoti.stProc env)
        (fun m2 kd2 res2 => DeleteNoti.stShouldDelete env.now m2 = true)
        (fun page i kd2 res2 hmem2 => stProc_delete_src env page i kd2 res2 hmem2)
        (hist.filter (fun mm => mm.type == MsgType.stream)).length
        (hist.filter (fun mm => mm.type == MsgType.stream)) (le_refl _)
        0 none 0 0 m.id kd res hmem
      obtain ⟨m2, hm2, hid, hq⟩ := hsrc
      have hm2hist : m2 ∈ hist := List.mem_of_mem_filter hm2
      have hmeq : m2 = m := List.inj_on_of_nodup_map hnodup hm2hist hm hid
      rw [hmeq] at hq
      simp [DeleteNoti.stShouldDelete, hexcD] at hq
  · intro env hist
    have h := sweepLoop_st_succ env (Alert.procPage env) (procPage_st_succCount env)
      hist.length hist (le_refl _) 0 none 0 0
    simpa [Alert.run_delete_noti] using h

/-- C2 witness: the exempt, 3-day-overdue stream message `mEx` never
receives a delete call from the unified sweep. -/
theorem c2_exemption_witness :
    Ev.delete 2 MsgType.stream DelOutcome.success ∉ (Alert.run_delete_noti env0 [mEx]).trace :=
  (c2_exemption.2.1 env0 [mEx] (by decide) mEx (by simp) rfl (by decide)
    MsgType.stream DelOutcome.success).1

/-- C7: in the unified sweep of `alert.py`, a failed delete call leaves
its counter unchanged (each final counter equals exactly the successful
delete events of its kind); over a history with distinct ids no message
id ever receives two delete calls in a run (no retry); and the fetches
and delete calls issued are identical whatever the delete outcomes — a
delete failure never aborts or alters the rest of the sweep. -/
theorem c7_delete_failure (env : Env) (hist : List Msg)
    (hids : (hist.map (fun m => m.id)).Nodup) (d2 : Nat → DelOutcome) :
    ((Alert.run_delete_noti env hist).dm_deleted
        = (Alert.run_delete_noti env hist).trace.countP (isSuccessDel MsgType.priv) ∧
     (Alert.run_delete_noti env hist).stream_deleted
        = (Alert.run_delete_noti env hist).trace.countP (isSuccessDel MsgType.stream)) ∧
    ((Alert.run_delete_noti env hist).trace.filterMap delIdOf).Nodup ∧
    (Alert.run_delete_noti env hist).trace.map evShape
      = (Alert.run_delete_noti ⟨env.now, d2, env.fetchErr⟩ hist).trace.map evShape := by
  refine ⟨⟨?_, ?_⟩, ?_, ?_⟩
  · have h := sweepLoop_dm_succ env (Alert.procPage env) (procPage_dm_succCount env)
      hist.length hist (le_refl _) 0 none 0 0
    simpa [Alert.run_delete_noti] using h
  · have h := sweepLoop_st_succ env (Alert.procPage env) (procPage_st_succCount env)
      hist.length hist (le_refl _) 0 none 0 0
    simpa [Alert.run_delete_noti] using h
  · have hproc : ∀ page, ((Alert.procPage env page).evs.filterMap delIdOf : Multiset Nat)
        = (↑((page.filter (Alert.dmShouldDelete env.now)).map (fun m => m.id)) : Multiset Nat)
          + ↑((page.filter (Alert.stShouldDelete env.now)).map (fun m => m.id)) := by
      intro page
      have hl : (Alert.procPage env page).evs.filterMap delIdOf
          = (page.filter (Alert.dmShouldDelete env.now)).map (fun m => m.id)
            ++ (page.filter (Alert.stShouldDelete env.now)).map (fun m => m.id) := by
        simp [Alert.procPage, Alert.delete_old_direct_messages,
          Alert.delete_old_stream_messages, List.filterMap_append, delBatch_delIds]
      rw [hl]
      exact (Multiset.coe_add _ _).symm
    have hsplitq : ∀ (q : Msg → Bool) (l : List Msg) (i : Nat),
        (l.filter q).map (fun m => m.id)
          = ((l.take i).filter q).map (fun m => m.id)
            ++ ((l.drop i).filter q).map (fun m => m.id) := by
      intro q l i
      rw [← List.map_append, ← List.filter_append, List.take_append_drop]
    have hsplit : ∀ (l : List Msg) (i : Nat),
        ((↑((l.filter (Alert.dmShouldDelete env.now)).map (fun m => m.id)) : Multiset Nat)
          + ↑((l.filter (Alert.stShouldDelete env.now)).map (fun m => m.id)))
        = ((↑(((l.take i).filter (Alert.dmShouldDelete env.now)).map (fun m => m.id))
              : Multiset Nat)
            + ↑(((l.take i).filter (Alert.stShouldDelete env.now)).map (fun m => m.id)))
          + ((↑(((l.drop i).filter (Alert.dmShouldDelete env.now)).map (fun m => m.id))
              : Multiset Nat)
            + ↑(((l.drop i).filter (Alert.stShouldDelete env.now)).map (fun m => m.id))) := by
      intro l i
      rw [hsplitq (Alert.dmShouldDelete env.now) l i, hsplitq (Alert.stShouldDelete env.now) l i]
      simp only [← Multiset.coe_add]
      abel
    have hle := sweepLoop_extract_le env (Alert.procPage env) delIdOf
      (fun l => (↑((l.filter (Alert.dmShouldDelete env.now)).map (fun m => m.id)) : Multiset Nat)
        + ↑((l.filter (Alert.stShouldDelete env.now)).map (fun m => m.id)))
      (fun a p => rfl) (fun ms0 => rfl) hproc hsplit hist.length hist (le_refl _) 0 none 0 0
    have hnodupF : Multiset.Nodup
        ((↑((hist.filter (Alert.dmShouldDelete env.now)).map (fun m => m.id)) : Multiset Nat)
          + ↑((hist.filter (Alert.stShouldDelete env.now)).map (fun m => m.id))) := by
      rw [Multiset.nodup_add]
      refine ⟨?_, ?_, ?_⟩
      · rw [Multiset.coe_nodup]
        exact List.Nodup.sublist ((List.filter_sublist _).map _) hids
      · rw [Multiset.coe_nodup]
        exact List.Nodup.sublist ((List.filter_sublist _).map _) hids
      · rw [Multiset.coe_disjoint]
        intro i hiA hiB
        simp only [List.mem_map, List.mem_filter] at hiA hiB
        obtain ⟨ma, ⟨hmaMem, hmaQ⟩, hmaId⟩ := hiA
        obtain ⟨mb, ⟨hmbMem, hmbQ⟩, hmbId⟩ := hiB
        have hab : ma = mb :=
          List.inj_on_of_nodup_map hids hmaMem hmbMem (by rw [hmaId, hmbId])
        rw [hab] at hmaQ
        simp [Alert.dmShouldDelete] at hmaQ
        simp [Alert.stShouldDelete] at hmbQ
        exact absurd (hmaQ.1.symm.trans hmbQ.1.1) (by simp)
    have hleNodup := Multiset.nodup_of_le hle hnodupF
    rw [Multiset.coe_nodup] at hleNodup
    simpa [Alert.run_delete_noti] using hleNodup
  · have h := sweepLoop_shape env ⟨env.now, d2, env.fetchErr⟩ (Alert.procPage env)
      (Alert.procPage ⟨env.now, d2, env.fetchErr⟩) (fun j => rfl)
      (procPage_shape env ⟨env.now, d2, env.fetchErr⟩ rfl)
      hist.length hist (le_refl _) 0 none 0 0 0 0
    simpa [Alert.run_delete_noti] using h

/-- C7 witness: on a one-message history every id receives at most one
delete call even when the remote rejects every delete. -/
theorem c7_delete_failure_witness :
    ((Alert.run_delete_noti envFail [mOld]).trace.filterMap delIdOf).Nodup :=
  (c7_delete_failure envFail [mOld] (by decide) (fun j => DelOutcome.failure)).2.1

/-- C8 counterexample: on a single direct message aged about 27.8
hours, the unified sweep of `alert.py` (48-hour direct cutoff) deletes
nothing while the direct pass of `delete_noti.py` (24-hour direct
cutoff) deletes it, so the two sweeps do not delete the same set of
messages under the same clock. -/
theorem c8_counterexample :
    (Alert.run_delete_noti env0 [m0]).dm_deleted = 0 ∧
    (DeleteNoti.delete_old_direct_messages env0 [m0]).dm_deleted = 1 := by
  constructor
  · simp [Alert.run_delete_noti, sweepLoop, remoteFetch, fetch_bot_messages, pageOf, env0, m0,
      Alert.procPage, Alert.delete_old_direct_messages, Alert.delete_old_stream_messages,
      delBatch, Alert.dmShouldDelete, Alert.stShouldDelete, Alert.DM_DELETE_OLDER_THAN,
      Alert.STREAM_DELETE_OLDER_THAN]
  · simp [DeleteNoti.delete_old_direct_messages, DeleteNoti.dmProc, sweepLoop, remoteFetch,
      fetch_bot_messages, pageOf, env0, m0, delBatch, DeleteNoti.dmShouldDelete,
      DeleteNoti.DM_DELETE_OLDER_THAN]

/-- C8, amended: under a failure-free remote and a history none of
whose direct messages has age strictly between 24 and 48 hours (the
interval where the two files' direct cutoffs disagree), the two-pass
sweep of `delete_noti.py` deletes exactly the same multiset of message
ids as the unified sweep of `alert.py` and produces the same per-kind
counts; the stream halves agree unconditionally. -/
theorem c8_two_pass (env : Env) (hist : List Msg)
    (hf : ∀ j, env.fetchErr j = false)
    (hage : ∀ m, m ∈ hist → m.type = MsgType.priv →
      env.now - m.timestamp ≤ DeleteNoti.DM_DELETE_OLDER_THAN ∨
      Alert.DM_DELETE_OLDER_THAN < env.now - m.timestamp) :
    (Alert.run_delete_noti env hist).dm_deleted
      = (DeleteNoti.delete_old_direct_messages env hist).dm_deleted ∧
    (Alert.run_delete_noti env hist).stream_deleted
      = (DeleteNoti.delete_old_stream_messages env hist).stream_deleted ∧
    ((Alert.run_delete_noti env hist).trace.filterMap succIdAny : Multiset Nat)
      = ↑((DeleteNoti.delete_old_direct_messages env hist).trace.filterMap succIdAny)
        + ↑((DeleteNoti.delete_old_stream_messages env hist).trace.filterMap succIdAny) := by
  have hlistD : hist.filter
        (fun m => Alert.dmShouldDelete env.now m && (env.delRes m.id == DelOutcome.success))
      = (hist.filter (fun m => m.type == MsgType.priv)).filter
        (fun m => DeleteNoti.dmShouldDelete env.now m
          && (env.delRes m.id == DelOutcome.success)) := by
    rw [List.filter_filter]
    apply List.filter_congr
    intro m hm
    by_cases htype : m.type == MsgType.priv
    · have hpriv : m.type = MsgType.priv := by simpa using htype
      have hdec : decide (m.timestamp < env.now - Alert.DM_DELETE_OLDER_THAN)
          = decide (m.timestamp < env.now - DeleteNoti.DM_DELETE_OLDER_THAN) := by
        rw [decide_eq_decide]
        rcases hage m hm hpriv with hcase | hcase
        · simp only [DeleteNoti.DM_DELETE_OLDER_THAN] at hcase
          simp only [Alert.DM_DELETE_OLDER_THAN, DeleteNoti.DM_DELETE_OLDER_THAN]
          omega
        · simp only [Alert.DM_DELETE_OLDER_THAN] at hcase
          simp only [Alert.DM_DELETE_OLDER_THAN, DeleteNoti.DM_DELETE_OLDER_THAN]
          omega
      simp [Alert.dmShouldDelete, DeleteNoti.dmShouldDelete, htype, hdec]
    · simp [Alert.dmShouldDelete, DeleteNoti.dmShouldDelete, htype]
  have hlistS : hist.filter
        (fun m => Alert.stShouldDelete env.now m && (env.delRes m.id == DelOutcome.success))
      = (hist.filter (fun m => m.type == MsgType.stream)).filter
        (fun m => DeleteNoti.stShouldDelete env.now m
          && (env.delRes m.id == DelOutcome.success)) := by
    rw [List.filter_filter]
    apply List.filter_congr
    intro m hm
    by_cases htype : m.type == MsgType.stream
    · simp [Alert.stShouldDelete, DeleteNoti.stShouldDelete, htype,
        Alert.EXCLUDED_STREAM, Alert.EXCLUDED_TOPIC, DeleteNoti.EXCLUDED_STREAM,
        DeleteNoti.EXCLUDED_TOPIC, Alert.STREAM_DELETE_OLDER_THAN,
        DeleteNoti.STREAM_DELETE_OLDER_THAN, Bool.and_assoc, Bool.and_comm]
    · simp [Alert.stShouldDelete, DeleteNoti.stShouldDelete, htype]
  have hA_dm := sweepLoop_dm_filter env (Alert.procPage env)
    (fun m => Alert.dmShouldDelete env.now m && (env.delRes m.id == DelOutcome.success))
    (fun page => delBatch_count env (Alert.dmShouldDelete env.now) MsgType.priv page)
    hf hist.length hist (le_refl _) 0 none 0 0
  have hA_st := sweepLoop_st_filter env (Alert.procPage env)
    (fun m => Alert.stShouldDelete env.now m && (env.delRes m.id == DelOutcome.success))
    (fun page => delBatch_count env (Alert.stShouldDelete env.now) MsgType.stream page)
    hf hist.length hist (le_refl _) 0 none 0 0
  have hD_dm := sweepLoop_dm_filter env (DeleteNoti.dmProc env)
    (fun m => DeleteNoti.dmShouldDelete env.now m && (env.delRes m.id == DelOutcome.success))
    (fun page => delBatch_count env (DeleteNoti.dmShouldDelete env.now) MsgType.priv page)
    hf (hist.filter (fun m => m.type == MsgType.priv)).length
    (hist.filter (fun m => m.type == MsgType.priv)) (le_refl _) 0 none 0 0
  have hD_st := sweepLoop_st_filter env (DeleteNoti.stProc env)
    (fun m => DeleteNoti.stShouldDelete env.now m && (env.delRes m.id == DelOutcome.success))
    (fun page => delBatch_count env (DeleteNoti.stShouldDelete env.now) MsgType.stream page)
    hf (hist.filter (fun m => m.type == MsgType.stream)).length
    (hist.filter (fun m => m.type == MsgType.stream)) (le_refl _) 0 none 0 0
  refine ⟨?_, ?_, ?_⟩
  · show (Alert.run_delete_noti env hist).dm_deleted
      = (DeleteNoti.delete_old_direct_messages env hist).dm_deleted
    rw [Alert.run_delete_noti, DeleteNoti.delete_old_direct_messages] at *
    rw [hA_dm, hD_dm, hlistD]
  · rw [Alert.run_delete_noti, DeleteNoti.delete_old_stream_messages] at *
    rw [hA_st, hD_st, hlistS]
  · have hsplitq : ∀ (q : Msg → Bool) (l : List Msg) (i : Nat),
        (l.filter q).map (fun m => m.id)
          = ((l.take i).filter q).map (fun m => m.id)
            ++ ((l.drop i).filter q).map (fun m => m.id) := by
      intro q l i
      rw [← List.map_append, ← List.filter_append, List.take_append_drop]
    have hprocA : ∀ page, ((Alert.procPage env page).evs.filterMap succIdAny : Multiset Nat)
        = (↑((page.filter (fun m => Alert.dmShouldDelete env.now m
              && (env.delRes m.id == DelOutcome.success))).map (fun m => m.id)) : Multiset Nat)
          + ↑((page.filter (fun m => Alert.stShouldDelete env.now m
              && (env.delRes m.id == DelOutcome.success))).map (fun m => m.id)) := by
      intro page
      have hl : (Alert.procPage env page).evs.filterMap succIdAny
          = (page.filter (fun m => Alert.dmShouldDelete env.now m
              && (env.delRes m.id == DelOutcome.success))).map (fun m => m.id)
            ++ (page.filter (fun m => Alert.stShouldDelete env.now m
              && (env.delRes m.id == DelOutcome.success))).map (fun m => m.id) := by
        simp [Alert.procPage, Alert.delete_old_direct_messages,
          Alert.delete_old_stream_messages, List.filterMap_append, delBatch_succIds]
      rw [hl]
      exact (Multiset.coe_add _ _).symm
    have hextA := sweepLoop_extract_eq env (Alert.procPage env) succIdAny
      (fun l => (↑((l.filter (fun m => Alert.dmShouldDelete env.now m
            && (env.delRes m.id == DelOutcome.success))).map (fun m => m.id)) : Multiset Nat)
        + ↑((l.filter (fun m => Alert.stShouldDelete env.now m
            && (env.delRes m.id == DelOutcome.success))).map (fun m => m.id)))
      (fun a p => rfl) (fun ms0 => rfl) hprocA
      (by
        intro l i
        dsimp only
        rw [hsplitq (fun m => Alert.dmShouldDelete env.now m
            && (env.delRes m.id == DelOutcome.success)) l i,
          hsplitq (fun m => Alert.stShouldDelete env.now m
            && (env.delRes m.id == DelOutcome.success)) l i]
        simp only [← Multiset.coe_add]
        abel)
      hf hist.length hist (le_refl _) 0 none 0 0
    have hextD := sweepLoop_extract_eq env (DeleteNoti.dmProc env) succIdAny
      (fun l => (↑((l.filter (fun m => DeleteNoti.dmShouldDelete env.now m
          && (env.delRes m.id == DelOutcome.success))).map (fun m => m.id)) : Multiset Nat))
      (fun a p => rfl) (fun ms0 => rfl)
      (by
        intro page
        have hl : (DeleteNoti.dmProc env page).evs.filterMap succIdAny
            = (page.filter (fun m => DeleteNoti.dmShouldDelete env.now m
                && (env.delRes m.id == DelOutcome.success))).map (fun m => m.id) :=
          delBatch_succIds env (DeleteNoti.dmShouldDelete env.now) MsgType.priv page
        rw [hl])
      (by
        intro l i
        dsimp only
        rw [hsplitq (fun m => DeleteNoti.dmShouldDelete env.now m
            && (env.delRes m.id == DelOutcome.success)) l i]
        simp only [← Multiset.coe_add])
      hf (hist.filter (fun m => m.type == MsgType.priv)).length
      (hist.filter (fun m => m.type == MsgType.priv)) (le_refl _) 0 none 0 0
    have hextS := sweepLoop_extract_eq env (DeleteNoti.stProc env) succIdAny
      (fun l => (↑((l.filter (fun m => DeleteNoti.stShouldDelete env.now m
          && (env.delRes m.id == DelOutcome.success))).map (fun m => m.id)) : Multiset Nat))
      (fun a p => rfl) (fun ms0 => rfl)
      (by
        intro page
        have hl : (DeleteNoti.stProc env page).evs.filterMap succIdAny
            = (page.filter (fun m => DeleteNoti.stShouldDelete env.now m
                && (env.delRes m.id == DelOutcome.success))).map (fun m => m.id) :=
          delBatch_succIds env (DeleteNoti.stShouldDelete env.now) MsgType.stream page
        rw [hl])
      (by
        intro l i
        dsimp only
        rw [hsplitq (fun m => DeleteNoti.stShouldDelete env.now m
            && (env.delRes m.id == DelOutcome.success)) l i]
        simp only [← Multiset.coe_add])
      hf (hist.filter (fun m => m.type == MsgType.stream)).length
      (hist.filter (fun m => m.type == MsgType.stream)) (le_refl _) 0 none 0 0
    rw [Alert.run_delete_noti, DeleteNoti.delete_old_direct_messages,
      DeleteNoti.delete_old_stream_messages]
    rw [hextA, hextD, hextS, hlistD, hlistS]

/-- C8 witness: on a history with one long-overdue direct message and
one exempt stream message the two implementations delete the same
direct messages. -/
theorem c8_two_pass_witness :
    (Alert.run_delete_noti env0 [mOld, mEx]).dm_deleted
      = (DeleteNoti.delete_old_direct_messages env0 [mOld, mEx]).dm_deleted :=
  (c8_two_pass env0 [mOld, mEx] (fun j => rfl) (by decide)).1
